import Mathlib

/-!
# Verification of the grading normalization and aggregation engine

Shallow embedding of the frontend's normalization / aggregation core:
* `src/lib/grading.ts` (`pick`, `toNum`, `toStr`),
* `src/App.tsx` (`normalizeGradeResponse`, `normalizeBatchResponse` and their
  inner `normItem` / `normRubricItem` helpers, which are line-for-line identical),
* `src/components/SingleGradingCard.tsx` (`recomputeOverallManual`),
* `src/components/BatchGradingCard.tsx` (`recomputeOverallManualForItem`,
  `recomputeBatchSummary`).

JavaScript runtime values are modelled by `JsValue`; JavaScript numbers are
idealized as exact rationals extended with `NaN` and signed infinities
(`JsNum`).  Operations that can raise a `TypeError` at runtime (property
access and the `in` operator on `null`/`undefined`/primitives) are modelled
in the `Except Unit` monad; everything else is total.
-/

namespace Grading

/-- JS `String.prototype.trim`: strip leading and trailing whitespace.
(JS trims the Unicode whitespace class; we model it with `Char.isWhitespace`.) -/
def jsTrim (s : String) : String :=
  ⟨List.rdropWhile Char.isWhitespace (List.dropWhile Char.isWhitespace s.data)⟩

/-- Decimal digits, fuel-indexed so that the recursion is structural
(`(n+1)/10 ≤ n`, so fuel `n` always suffices for `decDigits`). -/
def decDigitsFuel : ℕ → ℕ → List Char
  | 0, _ => []
  | _ + 1, 0 => []
  | fuel + 1, n + 1 =>
    decDigitsFuel fuel ((n + 1) / 10) ++ [Char.ofNat (48 + (n + 1) % 10)]

/-- Decimal digits of a positive natural number (empty for `0`). -/
def decDigits (n : ℕ) : List Char := decDigitsFuel n n

/-- JS number-to-string for nonnegative integers (`String(n)` / template
interpolation of an integer). -/
def decStr (n : ℕ) : String :=
  if n = 0 then "0" else ⟨decDigits n⟩

/-! ## JavaScript numbers

JS numbers are IEEE-754 doubles.  We idealize the finite doubles as exact
rationals and keep `NaN` and the signed infinities explicit, which captures
the branch structure of the engine (all of its finiteness tests, comparisons
and the exact constants appearing in the claims) without floating-point
rounding. -/

inductive JsNum where
  | nan : JsNum
  | posInf : JsNum
  | negInf : JsNum
  | fin : ℚ → JsNum
deriving Repr, DecidableEq

namespace JsNum

/-- JS `Number.isFinite`. -/
def isFinite : JsNum → Bool
  | fin _ => true
  | _ => false

/-- JS `+` on numbers. -/
def add : JsNum → JsNum → JsNum
  | nan, _ => nan
  | _, nan => nan
  | fin a, fin b => fin (a + b)
  | posInf, negInf => nan
  | negInf, posInf => nan
  | posInf, _ => posInf
  | _, posInf => posInf
  | negInf, _ => negInf
  | _, negInf => negInf

/-- JS unary minus on numbers. -/
def neg : JsNum → JsNum
  | nan => nan
  | posInf => negInf
  | negInf => posInf
  | fin a => fin (-a)

/-- JS `-` on numbers. -/
def sub (a b : JsNum) : JsNum := add a (neg b)

/-- JS `*` on numbers. -/
def mul : JsNum → JsNum → JsNum
  | nan, _ => nan
  | _, nan => nan
  | fin a, fin b => fin (a * b)
  | posInf, posInf => posInf
  | posInf, negInf => negInf
  | negInf, posInf => negInf
  | negInf, negInf => posInf
  | posInf, fin b => if 0 < b then posInf else if b < 0 then negInf else nan
  | fin a, posInf => if 0 < a then posInf else if a < 0 then negInf else nan
  | negInf, fin b => if 0 < b then negInf else if b < 0 then posInf else nan
  | fin a, negInf => if 0 < a then negInf else if a < 0 then posInf else nan

/-- JS `/` on numbers.  (Signed zeros are not modelled: division of a nonzero
finite number by zero takes the sign of the numerator.) -/
def div : JsNum → JsNum → JsNum
  | nan, _ => nan
  | _, nan => nan
  | fin a, fin b =>
    if b = 0 then (if a = 0 then nan else if 0 < a then posInf else negInf)
    else fin (a / b)
  | fin _, posInf => fin 0
  | fin _, negInf => fin 0
  | posInf, fin b => if 0 ≤ b then posInf else negInf
  | negInf, fin b => if 0 ≤ b then negInf else posInf
  | posInf, _ => nan
  | negInf, _ => nan

/-- JS `<=` on numbers (`false` whenever an operand is `NaN`). -/
def le : JsNum → JsNum → Bool
  | nan, _ => false
  | _, nan => false
  | fin a, fin b => a ≤ b
  | negInf, _ => true
  | _, posInf => true
  | posInf, _ => false
  | fin _, negInf => false

/-- JS `Math.min` on two numbers. -/
def minJ (a b : JsNum) : JsNum :=
  if a = nan ∨ b = nan then nan else if le a b then a else b

/-- JS `Math.max` on two numbers. -/
def maxJ (a b : JsNum) : JsNum :=
  if a = nan ∨ b = nan then nan else if le a b then b else a

/-- JS `Math.round`: round half toward positive infinity
(`Math.round x = ⌊x + 1/2⌋` for finite `x`). -/
def round : JsNum → JsNum
  | nan => nan
  | posInf => posInf
  | negInf => negInf
  | fin q => fin ((⌊q + 1 / 2⌋ : ℤ) : ℚ)

/-- Exact square root of a nonnegative rational, if one exists. -/
def ratSqrt (q : ℚ) : Option ℚ :=
  let sn := Nat.sqrt q.num.natAbs
  let sd := Nat.sqrt q.den
  if sn * sn = q.num.natAbs ∧ sd * sd = q.den then some ((sn : ℚ) / (sd : ℚ))
  else none

/-- JS `Math.sqrt`.  In the rational idealization square roots of
non-perfect-square rationals are not representable; those are mapped to
`nan`, and no theorem below depends on that case (`NaN`, negative and
perfect-square inputs behave exactly as in JS). -/
def sqrtJ : JsNum → JsNum
  | nan => nan
  | posInf => posInf
  | negInf => nan
  | fin q =>
    if q < 0 then nan
    else match ratSqrt q with
      | some r => fin r
      | none => nan

/-- JS `String(n)` for a number.  Integers print exactly; the formatting of
non-integral rationals approximates JS float printing (no engine code path
inspected by the claims depends on it). -/
def toStringJ : JsNum → String
  | nan => "NaN"
  | posInf => "Infinity"
  | negInf => "-Infinity"
  | fin q =>
    if q.den = 1 then
      (if q.num < 0 then "-" ++ decStr q.num.natAbs else decStr q.num.natAbs)
    else toString q

end JsNum

/-! ## String-to-number coercion (`Number(string)`) -/

/-- Numeric value of a decimal digit character. -/
def digitVal (c : Char) : ℕ := c.toNat - 48

/-- Natural number denoted by a list of decimal digits. -/
def natOfDigits (cs : List Char) : ℕ :=
  cs.foldl (fun a c => a * 10 + digitVal c) 0

/-- Parse an all-digits nonempty chunk. -/
def parseDigits (cs : List Char) : Option ℕ :=
  if cs.isEmpty then none
  else if cs.all Char.isDigit then some (natOfDigits cs)
  else none

/-- Strip an optional leading sign; returns (isNegative, rest). -/
def splitSign : List Char → Bool × List Char
  | '-' :: rest => (true, rest)
  | '+' :: rest => (false, rest)
  | cs => (false, cs)

/-- Parse an unsigned decimal mantissa: `digits`, `digits.digits?`, or
`.digits`. -/
def parseMantissa (cs : List Char) : Option ℚ :=
  let ip := cs.takeWhile Char.isDigit
  let rest := cs.dropWhile Char.isDigit
  match rest with
  | [] => if ip.isEmpty then none else some ((natOfDigits ip : ℕ) : ℚ)
  | '.' :: frac =>
    if frac.all Char.isDigit && !(ip.isEmpty && frac.isEmpty) then
      some (((natOfDigits ip : ℕ) : ℚ) + ((natOfDigits frac : ℕ) : ℚ) / 10 ^ frac.length)
    else none
  | _ => none

/-- Parse a signed decimal numeric literal with optional exponent. -/
def parseNumLit (cs : List Char) : Option ℚ :=
  let sc := splitSign cs
  let mant := sc.2.takeWhile (fun c => c ≠ 'e' && c ≠ 'E')
  let rest := sc.2.dropWhile (fun c => c ≠ 'e' && c ≠ 'E')
  let expPart : Option ℤ :=
    match rest with
    | [] => some 0
    | _ :: ecs =>
      let se := splitSign ecs
      (parseDigits se.2).map (fun n => if se.1 then -(n : ℤ) else (n : ℤ))
  match parseMantissa mant, expPart with
  | some m, some e => some ((if sc.1 then -m else m) * 10 ^ e)
  | _, _ => none

/-- JS `Number(string)`: trim, empty means `0`, the `Infinity` forms, then a
decimal literal, else `NaN`.  (Hex/octal/binary literals are not modelled;
no engine input inspected by the claims uses them.) -/
def strToNum (s : String) : JsNum :=
  let t := jsTrim s
  if t = "" then .fin 0
  else if t = "Infinity" ∨ t = "+Infinity" then .posInf
  else if t = "-Infinity" then .negInf
  else match parseNumLit t.data with
    | some q => .fin q
    | none => .nan

/-! ## JavaScript runtime values -/

inductive JsValue where
  | undef : JsValue
  | null : JsValue
  | bool : Bool → JsValue
  | num : JsNum → JsValue
  | str : String → JsValue
  | arr : List JsValue → JsValue
  | obj : List (String × JsValue) → JsValue
deriving Repr

/-- JS truthiness. -/
def jsTruthy : JsValue → Bool
  | .undef => false
  | .null => false
  | .bool b => b
  | .num .nan => false
  | .num (.fin q) => q ≠ 0
  | .num _ => true
  | .str s => s ≠ ""
  | .arr _ => true
  | .obj _ => true

/-- JS `typeof v === "object"` restricted to non-null values (the engine always
conjoins this test with truthiness, under which it is exactly array-or-object). -/
def isObjLike : JsValue → Bool
  | .arr _ => true
  | .obj _ => true
  | _ => false

/-- JS `Array.isArray`. -/
def isArr : JsValue → Bool
  | .arr _ => true
  | _ => false

/-- JS `typeof v === "number"`. -/
def isNumber : JsValue → Bool
  | .num _ => true
  | _ => false

/-- First binding of a key in an object's field list.  (JS objects built from
`JSON.parse` or object literals have unique keys; on duplicate keys we take
the first binding, a fixed deterministic choice.) -/
def lookupField (fields : List (String × JsValue)) (k : String) : Option JsValue :=
  (fields.find? (fun p => p.1 == k)).map (fun p => p.2)

/-- Array indexing by a property-key string: only the canonical decimal
representation of an in-range index hits an element. -/
def arrIndex (xs : List JsValue) (k : String) : Option JsValue :=
  match k.toNat? with
  | some i => if decStr i = k then xs.get? i else none
  | none => none

/-- Property read `v[k]` on a value already known not to be nullish
(on `null`/`undefined` JS throws instead — see `getField`).  Number, boolean
and string receivers autobox and yield `undefined` for the (alphabetic)
keys the engine reads; string `length`/index properties are not modelled. -/
def getFieldT (v : JsValue) (k : String) : JsValue :=
  match v with
  | .obj fs => (lookupField fs k).getD .undef
  | .arr xs => (arrIndex xs k).getD .undef
  | _ => JsValue.undef

/-- Property read `v[k]` including the `TypeError` on nullish receivers. -/
def getField (v : JsValue) (k : String) : Except Unit JsValue :=
  match v with
  | .null => .error ()
  | .undef => .error ()
  | _ => .ok (getFieldT v k)

/-- The test `k in v` for object/array receivers. -/
def jsInT (k : String) (v : JsValue) : Bool :=
  match v with
  | .obj fs => fs.any (fun p => p.1 == k)
  | .arr xs => (arrIndex xs k).isSome || k == "length"
  | _ => false

/-- The `in` operator: throws a `TypeError` unless the right operand is an
object (arrays included). -/
def jsIn (k : String) (v : JsValue) : Except Unit Bool :=
  match v with
  | .obj _ => .ok (jsInT k v)
  | .arr _ => .ok (jsInT k v)
  | _ => .error ()

/-- JS `Object.entries` (for arrays: index/value pairs; primitives reached by
the engine's loops are only ever objects or arrays). -/
def jsEntries : JsValue → List (String × JsValue)
  | .obj fs => fs
  | .arr xs => xs.enum.map (fun p => (decStr p.1, p.2))
  | _ => []

/-- JS `Object.keys`. -/
def jsKeys (v : JsValue) : List String := (jsEntries v).map (fun p => p.1)

/-- JS `a ?? b`. -/
def jsNullish (a b : JsValue) : JsValue :=
  match a with
  | .null => b
  | .undef => b
  | _ => a

/-- JS `a || b` on strings (`""` is the only falsy string). -/
def strOr (a b : String) : String := if a = "" then b else a

/-- JS `Number(v)`.  Array coercion goes through string conversion in JS;
we model the cases with at most one element directly (`Number([]) = 0`,
singleton unwrapping) and send other arrays and all plain objects to `NaN`,
matching JS on everything the engine can receive except exotic nestings. -/
def jsToNumber : JsValue → JsNum
  | .undef => .nan
  | .null => .fin 0
  | .bool b => .fin (if b then 1 else 0)
  | .num n => n
  | .str s => strToNum s
  | .arr [] => .fin 0
  | .arr [x] =>
    match x with
    | .null => .fin 0
    | .undef => .fin 0
    | .num n => n
    | .str s => strToNum s
    | _ => .nan
  | .arr _ => .nan
  | .obj _ => .nan

/-! ## `src/lib/grading.ts` helpers -/

/-- Embedding of `pick(o, keys)`: return `o[k]` for the first `k` with `k in o`, else
`undefined`.  Throws exactly when the `in` operator does. -/
def pick (o : JsValue) : List String → Except Unit JsValue
  | [] => .ok .undef
  | k :: ks => do
    let b ← jsIn k o
    if b then .ok (getFieldT o k) else pick o ks

/-- Total unfolding of `pick` on object/array receivers. -/
def pickT (o : JsValue) : List String → JsValue
  | [] => .undef
  | k :: ks => if jsInT k o then getFieldT o k else pickT o ks

/-- Embedding of `toNum(v, def)`: `Number(v)` if finite, else the default. -/
def toNum (v : JsValue) (d : JsNum) : JsNum :=
  let n := jsToNumber v
  if n.isFinite then n else d

/-- Embedding of `toStr(v)`: strings pass through, numbers and booleans stringify,
anything else is `undefined`. -/
def toStr : JsValue → Option String
  | .str s => some s
  | .num n => some n.toStringJ
  | .bool b => some (if b then "true" else "false")
  | _ => none

/-! ## `normItem` (from `normalizeGradeResponse` in `src/App.tsx`; the
`normRubricItem` closure inside `normalizeBatchResponse` is line-for-line
identical and is embedded by this same function) -/

def nameAliases : List String :=
  ["criterion", "item", "name", "title", "dimension", "aspect", "label"]

def weightAliases : List String := ["weight", "w", "weighting"]

def scoreAliases : List String := ["score", "points", "value"]

def commentAliases : List String :=
  ["comment", "feedback", "reason", "explanation", "notes"]

/-- The fallback scan: walk `Object.entries(it)` and stop at the first
string-typed value whose key is not the literal `"comment"`; its trimmed
value is the fallback (even when the trim is empty — the loop `break`s). -/
def firstStringField : List (String × JsValue) → Option String
  | [] => none
  | (k, .str s) :: rest =>
    if k = "comment" then firstStringField rest else some s
  | _ :: rest => firstStringField rest

def itemFallbackName (it : JsValue) : String :=
  match firstStringField (jsEntries it) with
  | some s => jsTrim s
  | none => ""

def normItem (weightsUsedMap : Option JsValue) (userRubricNames : List String)
    (it : JsValue) (idx : ℕ) : Except Unit JsValue := do
  let fromBackendRaw ← pick it nameAliases
  let fromBackend := ((toStr fromBackendRaw).map jsTrim).getD ""
  let fromUser := jsTrim (userRubricNames.getD idx "")
  let fallback :=
    if fromBackend = "" ∧ fromUser = "" then itemFallbackName it else ""
  let criterion :=
    strOr fromBackend (strOr fromUser (strOr fallback ("Item " ++ decStr (idx + 1))))
  let w0 ← pick it weightAliases
  let weightBase := toNum w0 (.fin 1)
  let weight ←
    match weightsUsedMap with
    | none => Except.ok weightBase
    | some m => do
      let b ← jsIn criterion m
      if b then
        let w := toNum (getFieldT m criterion) .nan
        Except.ok (if w.isFinite then w else weightBase)
      else Except.ok weightBase
  let sv ← pick it scoreAliases
  let cv ← pick it commentAliases
  Except.ok (.obj [
    ("criterion", .str criterion),
    ("score", .num (toNum sv (.fin 0))),
    ("weight", .num weight),
    ("comment", .str ((toStr cv).getD ""))])

/-! ## `normalizeGradeResponse` (`src/App.tsx`) -/

/-- The guard `raw.weights_used && typeof raw.weights_used === "object"` — keep the
value as the active override map only when it is a (non-null) object. -/
def weightsUsedMapOf (wu : JsValue) : Option JsValue :=
  if jsTruthy wu && isObjLike wu then some wu else none

/-- The mapping `itemsSrc.map((it, idx) => normItem(it, idx))`, propagating the first
thrown `TypeError`. -/
def mapNormItems (m : Option JsValue) (names : List String) :
    List JsValue → ℕ → Except Unit (List JsValue)
  | [], _ => .ok []
  | it :: rest, idx => do
    let x ← normItem m names it idx
    let xs ← mapNormItems m names rest (idx + 1)
    .ok (x :: xs)

/-- The rubric-item source list:
`(isArray(raw.rubric_scores) && raw.rubric_scores) || (… rubric) || (… details) || []`.
(An empty array is truthy in JS, so an empty `rubric_scores` array wins.) -/
def itemsSrcOf (raw : JsValue) : List JsValue :=
  match getFieldT raw "rubric_scores" with
  | .arr xs => xs
  | _ =>
    match getFieldT raw "rubric" with
    | .arr xs => xs
    | _ =>
      match getFieldT raw "details" with
      | .arr xs => xs
      | _ => []

def normalizeGradeResponse (raw : JsValue) (userRubricNames : List String) :
    Except Unit JsValue := do
  let wu ← getField raw "weights_used"
  let weightsUsedMap := weightsUsedMapOf wu
  let itemsSrc := itemsSrcOf raw
  let oc ← pick raw ["feedback", "overall_comment", "summary", "comment"]
  let items ← mapNormItems weightsUsedMap userRubricNames itemsSrc 0
  let ra ← pick raw ["reference_answer", "reference", "ref_answer"]
  Except.ok (.obj [
    ("overall_score", .num (toNum
      (jsNullish (getFieldT raw "overall_score")
        (jsNullish (getFieldT raw "total_score") (getFieldT raw "score"))) (.fin 0))),
    ("overall_comment", .str ((toStr oc).getD "")),
    ("rubric_scores", .arr items),
    ("reference_answer",
      match toStr ra with
      | some s => .str s
      | none => .undef),
    ("reference_answer_generated", .bool (jsTruthy
      (jsNullish (getFieldT raw "reference_answer_generated")
        (getFieldT raw "generated_reference")))),
    ("weighted_overall",
      match getFieldT raw "weighted_overall" with
      | .num n => .num n
      | _ => .undef),
    ("weights_used", weightsUsedMap.getD .undef)])

/-! ## `normalizeBatchResponse` (`src/App.tsx`) -/

/-- One element of `rawItems.map(...)` inside `normalizeBatchResponse`. -/
def normBatchItem (m : Option JsValue) (names : List String) (it : JsValue) :
    Except Unit JsValue := do
  let idv ← getField it "id"
  let fv ← getField it "file"
  let okv ← getField it "ok"
  let ok := jsTruthy okv
  let rv ← getField it "result"
  let resultItem ←
    if ok && jsTruthy rv && isObjLike rv then do
      let rubricScores ←
        match getFieldT rv "rubric_scores" with
        | .arr xs => do
          let ys ← mapNormItems m names xs 0
          Except.ok (JsValue.arr ys)
        | _ => Except.ok JsValue.undef
      let fb ← pick rv ["feedback", "overall_comment", "comment"]
      Except.ok (JsValue.obj [
        ("overall_score", .num (toNum (getFieldT rv "overall_score") (.fin 0))),
        ("weighted_overall",
          match getFieldT rv "weighted_overall" with
          | .num n => .num n
          | _ => .undef),
        ("feedback", .str ((toStr fb).getD "")),
        ("rubric_scores", rubricScores)])
    else Except.ok JsValue.null
  let ev ← getField it "error"
  let errVal : JsValue :=
    if !ok then
      match toStr ev with
      | some s => if s = "" then .null else .str s
      | none => .null
    else .null
  Except.ok (.obj [
    ("id", .str ((toStr idv).getD "")),
    ("file", .str ((toStr fv).getD "")),
    ("ok", .bool ok),
    ("result", resultItem),
    ("error", errVal)])

def mapNormBatchItems (m : Option JsValue) (names : List String) :
    List JsValue → Except Unit (List JsValue)
  | [] => .ok []
  | it :: rest => do
    let x ← normBatchItem m names it
    let xs ← mapNormBatchItems m names rest
    .ok (x :: xs)

/-- The normalized `summary`: each numeric field coerced with default `0`,
with `pass_rate` additionally multiplied by 100; `undefined` when
`raw.summary` is not a (truthy) object. -/
def batchSummaryOf (sv : JsValue) : JsValue :=
  if jsTruthy sv && isObjLike sv then
    .obj [
      ("avg", .num (toNum (getFieldT sv "avg") (.fin 0))),
      ("min", .num (toNum (getFieldT sv "min") (.fin 0))),
      ("max", .num (toNum (getFieldT sv "max") (.fin 0))),
      ("stdev", .num (toNum (getFieldT sv "stdev") (.fin 0))),
      ("pass_rate", .num (JsNum.mul (toNum (getFieldT sv "pass_rate") (.fin 0)) (.fin 100)))]
  else JsValue.undef

/-- The list `raw.rubric_used.map(toStr).filter(Boolean)` (drops both `undefined`
and empty strings, which are falsy). -/
def rubricUsedOf (ru : JsValue) : List JsValue :=
  match ru with
  | .arr xs => xs.filterMap (fun x =>
      match toStr x with
      | some s => if s = "" then none else some (JsValue.str s)
      | none => none)
  | _ => []

def reportFilesOf (rf : JsValue) : JsValue :=
  if jsTruthy rf && isObjLike rf then
    .obj [
      ("txt", match toStr (getFieldT rf "txt") with
        | some s => .str s
        | none => .undef),
      ("csv", match toStr (getFieldT rf "csv") with
        | some s => .str s
        | none => .undef)]
  else .undef

def normalizeBatchResponse (raw : JsValue) (userRubricNames : List String) :
    Except Unit JsValue := do
  let iv ← getField raw "items"
  let rawItems :=
    match iv with
    | .arr xs => xs
    | _ => []
  let wu ← getField raw "weights_used"
  let weightsUsedMapGlobal := weightsUsedMapOf wu
  let items ← mapNormBatchItems weightsUsedMapGlobal userRubricNames rawItems
  Except.ok (.obj [
    ("count", .num (toNum (getFieldT raw "count") (.fin (rawItems.length : ℚ)))),
    ("success_count", .num (toNum (getFieldT raw "success_count") (.fin 0))),
    ("fail_count", .num (toNum (getFieldT raw "fail_count") (.fin 0))),
    ("rubric_used", .arr (rubricUsedOf (getFieldT raw "rubric_used"))),
    ("weights_used", weightsUsedMapGlobal.getD .undef),
    ("reference_answer", .str ((toStr (getFieldT raw "reference_answer")).getD "")),
    ("reference_answer_generated", .bool (jsTruthy
      (getFieldT raw "reference_answer_generated"))),
    ("items", .arr items),
    ("summary", batchSummaryOf (getFieldT raw "summary")),
    ("report_files", reportFilesOf (getFieldT raw "report_files"))])

/-! ## `recomputeOverallManual` (`src/components/SingleGradingCard.tsx`) and
`recomputeOverallManualForItem` (`src/components/BatchGradingCard.tsx`)

The typed `RubricScore` record of `src/types/grading.ts`.  `score` is a
runtime number (possibly `NaN`/infinite — the functions guard with
`Number.isFinite`); `weight` is optional; the `weightsUsed` parameter is a
raw-cast record, so its values are arbitrary runtime values. -/

structure RubricScore where
  criterion : String
  score : JsNum
  weight : Option JsNum
  comment : Option String
deriving Repr, DecidableEq

/-- Lines 53–54 of `SingleGradingCard.tsx` (identically lines 52–53 of
`BatchGradingCard.tsx`): the per-criterion effective weight.
`rawW = useWeights ? Number(weightsUsed[criterion] ?? 1) : 1`;
`w = Number.isFinite(rawW) && rawW > 0 ? rawW : 1`. -/
def effWeight (useWeights : Bool) (weightsUsed : Option JsValue) (criterion : String) : ℚ :=
  let rawW : JsNum :=
    if useWeights then
      jsToNumber (jsNullish (getFieldT (weightsUsed.getD .undef) criterion)
        (.num (.fin 1)))
    else .fin 1
  match rawW with
  | .fin q => if 0 < q then q else 1
  | _ => 1

/-- Line 55: `Number.isFinite(s.score) ? s.score : 0`. -/
def clampScore (s : JsNum) : ℚ :=
  match s with
  | .fin q => q
  | _ => 0

/-- JS `Math.max(...list)` for a rational list (the call sites only reach it
with a nonempty list; JS's empty-spread result `-Infinity` is immaterial
there and we return `0`). -/
def listMax : List ℚ → ℚ
  | [] => 0
  | x :: xs => xs.foldl max x

/-- The guard `!!weightsUsed && Object.keys(weightsUsed).length > 0`. -/
def useWeightsOf (weightsUsed : Option JsValue) : Bool :=
  match weightsUsed with
  | some m => jsTruthy m && !(jsKeys m).isEmpty
  | none => false

def recomputeOverallManual (scores : List RubricScore)
    (weightsUsed : Option JsValue) : JsNum :=
  if scores = [] then .fin 0
  else
    let useWeights := useWeightsOf weightsUsed
    let sums := scores.foldl (fun (acc : ℚ × ℚ) s =>
      let w := effWeight useWeights weightsUsed s.criterion
      let score := clampScore s.score
      (acc.1 + w, acc.2 + score * w)) (0, 0)
    if sums.1 = 0 then .fin 0
    else
      let avg := sums.2 / sums.1
      let maxScore := listMax (scores.map (fun s => clampScore s.score))
      let scale : ℚ := if maxScore ≤ 1 then 100 else 1
      let overall := avg * scale
      .fin (((⌊overall * 10 + 1 / 2⌋ : ℤ) : ℚ) / 10)

/-- Embedding of `recomputeOverallManualForItem` of `BatchGradingCard.tsx` — a verbatim
copy of `recomputeOverallManual` in the source, embedded separately. -/
def recomputeOverallManualForItem (scores : List RubricScore)
    (weightsUsed : Option JsValue) : JsNum :=
  if scores = [] then .fin 0
  else
    let hasWeights := useWeightsOf weightsUsed
    let sums := scores.foldl (fun (acc : ℚ × ℚ) s =>
      let w := effWeight hasWeights weightsUsed s.criterion
      let score := clampScore s.score
      (acc.1 + w, acc.2 + score * w)) (0, 0)
    if sums.1 = 0 then .fin 0
    else
      let avg := sums.2 / sums.1
      let maxScore := listMax (scores.map (fun s => clampScore s.score))
      let scale : ℚ := if maxScore ≤ 1 then 100 else 1
      .fin (((⌊avg * scale * 10 + 1 / 2⌋ : ℤ) : ℚ) / 10)

/-! ## `recomputeBatchSummary` (`src/components/BatchGradingCard.tsx`)

Typed shapes of `BatchGradeResponse["items"]` (`src/types/grading.ts`).
`overall_score` is kept as a runtime value so the function's
`typeof … === "number"` guard stays meaningful. -/

structure ItemGradeResultT where
  overall_score : JsValue
  weighted_overall : Option JsNum
  feedback : String
  rubric_scores : Option (List RubricScore)
deriving Repr

structure BatchItemT where
  id : String
  file : String
  ok : Bool
  result : Option ItemGradeResultT
  error : Option String
deriving Repr

structure BatchSummaryT where
  avg : JsNum
  min : JsNum
  max : JsNum
  stdev : JsNum
  pass_rate : JsNum
deriving Repr, DecidableEq

/-- JS `Math.round(x * 10) / 10`. -/
def jsRound10 (x : JsNum) : JsNum :=
  JsNum.div (JsNum.round (JsNum.mul x (.fin 10))) (.fin 10)

/-- The score-collection loop: push `it.result.overall_score` for every item
with `it.ok && it.result && typeof it.result.overall_score === "number"`. -/
def collectScores (items : List BatchItemT) : List JsNum :=
  items.filterMap (fun it =>
    match it.result with
    | some r =>
      if it.ok && isNumber r.overall_score then
        match r.overall_score with
        | .num n => some n
        | _ => none
      else none
    | none => none)

def recomputeBatchSummary (items : List BatchItemT) (passThreshold : String) :
    BatchSummaryT :=
  let scores := collectScores items
  if scores.isEmpty then ⟨.fin 0, .fin 0, .fin 0, .fin 0, .fin 0⟩
  else
    let n : ℚ := (scores.length : ℚ)
    let sum := scores.foldl JsNum.add (.fin 0)
    let avg := JsNum.div sum (.fin n)
    let minV := scores.foldl JsNum.minJ .posInf
    let maxV := scores.foldl JsNum.maxJ .negInf
    let mean := avg
    let variance := JsNum.div
      (scores.foldl (fun acc x =>
        JsNum.add acc (JsNum.mul (JsNum.sub x mean) (JsNum.sub x mean))) (.fin 0))
      (.fin n)
    let stdev := JsNum.sqrtJ variance
    let th := strToNum passThreshold
    let threshold := if th.isFinite then th else .fin 60
    let passCount : ℚ := ((scores.filter (fun s => JsNum.le threshold s)).length : ℚ)
    let passRate : ℚ := passCount / n * 100
    ⟨jsRound10 avg, minV, maxV, jsRound10 stdev, jsRound10 (.fin passRate)⟩

/-- The all-zero batch summary. -/
def zeroSummary : BatchSummaryT := ⟨.fin 0, .fin 0, .fin 0, .fin 0, .fin 0⟩

/-! ## Total mirrors of the normalizers on non-throwing inputs

These recompute the same values as the `Except`-monadic embeddings above,
with the throwing primitives (`pick`, `jsIn`, `getField`) replaced by their
total restrictions; the bridge lemmas below prove they agree whenever the
monadic versions succeed. -/

/-- The resolved criterion name of `normItem`. -/
def criterionOf (names : List String) (it : JsValue) (idx : ℕ) : String :=
  let fromBackend := ((toStr (pickT it nameAliases)).map jsTrim).getD ""
  let fromUser := jsTrim (names.getD idx "")
  let fallback :=
    if fromBackend = "" ∧ fromUser = "" then itemFallbackName it else ""
  strOr fromBackend (strOr fromUser (strOr fallback ("Item " ++ decStr (idx + 1))))

/-- The resolved weight of `normItem`. -/
def weightOf (m : Option JsValue) (it : JsValue) (criterion : String) : JsNum :=
  let weightBase := toNum (pickT it weightAliases) (.fin 1)
  match m with
  | none => weightBase
  | some mv =>
    if jsInT criterion mv then
      let w := toNum (getFieldT mv criterion) .nan
      if w.isFinite then w else weightBase
    else weightBase

/-- The canonical rubric item produced by `normItem`. -/
def normItemObj (m : Option JsValue) (names : List String) (it : JsValue)
    (idx : ℕ) : JsValue :=
  .obj [
    ("criterion", .str (criterionOf names it idx)),
    ("score", .num (toNum (pickT it scoreAliases) (.fin 0))),
    ("weight", .num (weightOf m it (criterionOf names it idx))),
    ("comment", .str ((toStr (pickT it commentAliases)).getD ""))]

/-- The canonical grade result produced by `normalizeGradeResponse`, with the
item list already normalized. -/
def gradeResultObj (raw : JsValue) (items : List JsValue) : JsValue :=
  .obj [
    ("overall_score", .num (toNum
      (jsNullish (getFieldT raw "overall_score")
        (jsNullish (getFieldT raw "total_score") (getFieldT raw "score"))) (.fin 0))),
    ("overall_comment", .str ((toStr
      (pickT raw ["feedback", "overall_comment", "summary", "comment"])).getD "")),
    ("rubric_scores", .arr items),
    ("reference_answer",
      match toStr (pickT raw ["reference_answer", "reference", "ref_answer"]) with
      | some s => .str s
      | none => .undef),
    ("reference_answer_generated", .bool (jsTruthy
      (jsNullish (getFieldT raw "reference_answer_generated")
        (getFieldT raw "generated_reference")))),
    ("weighted_overall",
      match getFieldT raw "weighted_overall" with
      | .num n => .num n
      | _ => .undef),
    ("weights_used", (weightsUsedMapOf (getFieldT raw "weights_used")).getD .undef)]

/-- The raw batch item list (`Array.isArray(raw.items) ? raw.items : []`). -/
def rawItemsOf (raw : JsValue) : List JsValue :=
  match getFieldT raw "items" with
  | .arr xs => xs
  | _ => []

/-- The canonical batch result produced by `normalizeBatchResponse`, with the
item list already normalized. -/
def batchResultObj (raw : JsValue) (items : List JsValue) : JsValue :=
  .obj [
    ("count", .num (toNum (getFieldT raw "count") (.fin ((rawItemsOf raw).length : ℚ)))),
    ("success_count", .num (toNum (getFieldT raw "success_count") (.fin 0))),
    ("fail_count", .num (toNum (getFieldT raw "fail_count") (.fin 0))),
    ("rubric_used", .arr (rubricUsedOf (getFieldT raw "rubric_used"))),
    ("weights_used", (weightsUsedMapOf (getFieldT raw "weights_used")).getD .undef),
    ("reference_answer", .str ((toStr (getFieldT raw "reference_answer")).getD "")),
    ("reference_answer_generated", .bool (jsTruthy
      (getFieldT raw "reference_answer_generated"))),
    ("items", .arr items),
    ("summary", batchSummaryOf (getFieldT raw "summary")),
    ("report_files", reportFilesOf (getFieldT raw "report_files"))]

/-! ## Invariants of canonical values -/

/-- A weights map that the `in` operator accepts (what `weightsUsedMapOf`
always produces). -/
def OkMap (m : Option JsValue) : Prop :=
  m = none ∨ ∃ v, m = some v ∧ isObjLike v = true

/-- The stored weight already agrees with the map override that `normItem`
would apply for this criterion (true of every `normItem` output, and exactly
what makes a second normalization pass leave the weight unchanged). -/
def WeightStable (m : Option JsValue) (c : String) (w : JsNum) : Prop :=
  ∀ mv, m = some mv → jsInT c mv = true →
    (toNum (getFieldT mv c) .nan).isFinite = true →
    toNum (getFieldT mv c) .nan = w

/-- Shape invariant of a canonical rubric item relative to the active
weights map: fixed field list, trimmed non-empty criterion, finite score
and weight, and a weight already agreeing with the map override. -/
def CanonicalItem (m : Option JsValue) (v : JsValue) : Prop :=
  ∃ c sc w cm,
    v = .obj [("criterion", .str c), ("score", .num sc), ("weight", .num w),
      ("comment", .str cm)]
    ∧ jsTrim c = c ∧ c ≠ "" ∧ sc.isFinite = true ∧ w.isFinite = true
    ∧ WeightStable m c w

/-- Shape invariant of a canonical grade result. -/
def CanonicalResult (r : JsValue) : Prop :=
  ∃ n c items ra g wo wu,
    r = .obj [
      ("overall_score", .num n), ("overall_comment", .str c),
      ("rubric_scores", .arr items), ("reference_answer", ra),
      ("reference_answer_generated", .bool g), ("weighted_overall", wo),
      ("weights_used", wu)]
    ∧ n.isFinite = true
    ∧ (ra = .undef ∨ ∃ s, ra = .str s)
    ∧ (wo = .undef ∨ ∃ m, wo = .num m)
    ∧ (wu = .undef ∨ isObjLike wu = true)
    ∧ (∀ o ∈ items, CanonicalItem (weightsUsedMapOf wu) o)

/-! ## Definitions following the claims' wording (for refutation)

Each `spec…` definition below is written from the claim text it is named
after, not from the source, and is compared against the source embedding. -/

/-- Modelled from claim C2's wording: effective weight = the global-map
override if present, finite and positive; else 1 if no map; else the
criterion's own per-item weight if finite and positive; else 1. -/
def specEffWeightC2 (weightsUsed : Option JsValue) (s : RubricScore) : ℚ :=
  let perItem : ℚ :=
    match s.weight with
    | some (.fin q) => if 0 < q then q else 1
    | _ => 1
  match weightsUsed with
  | none => 1
  | some m =>
    if jsInT s.criterion m then
      match jsToNumber (getFieldT m s.criterion) with
      | .fin q => if 0 < q then q else perItem
      | _ => perItem
    else perItem

/-- Modelled from claim C2's wording: the aggregate with the claimed
effective weights (mean / scale / rounding pipeline unchanged). -/
def specRecomputeC2 (scores : List RubricScore) (weightsUsed : Option JsValue) :
    JsNum :=
  if scores = [] then .fin 0
  else
    let sums := scores.foldl (fun (acc : ℚ × ℚ) s =>
      let w := specEffWeightC2 weightsUsed s
      (acc.1 + w, acc.2 + clampScore s.score * w)) (0, 0)
    if sums.1 = 0 then .fin 0
    else
      let avg := sums.2 / sums.1
      let maxScore := listMax (scores.map (fun s => clampScore s.score))
      let scale : ℚ := if maxScore ≤ 1 then 100 else 1
      .fin (((⌊avg * scale * 10 + 1 / 2⌋ : ℤ) : ℚ) / 10)

/-- Modelled from claim C7's wording: the aggregate with round-half-
away-from-zero applied to `value × 10` (everything else as in the code). -/
def specRecomputeC7 (scores : List RubricScore) (weightsUsed : Option JsValue) :
    JsNum :=
  if scores = [] then .fin 0
  else
    let useWeights := useWeightsOf weightsUsed
    let sums := scores.foldl (fun (acc : ℚ × ℚ) s =>
      let w := effWeight useWeights weightsUsed s.criterion
      (acc.1 + w, acc.2 + clampScore s.score * w)) (0, 0)
    if sums.1 = 0 then .fin 0
    else
      let avg := sums.2 / sums.1
      let maxScore := listMax (scores.map (fun s => clampScore s.score))
      let scale : ℚ := if maxScore ≤ 1 then 100 else 1
      let v := avg * scale * 10
      .fin ((if 0 ≤ v then ((⌊v + 1 / 2⌋ : ℤ) : ℚ) else -((⌊-v + 1 / 2⌋ : ℤ) : ℚ)) / 10)

/-- Modelled from claim C9's wording: the name fallback scan excluding every
field aliased to "comment" (`comment, feedback, reason, explanation, notes`),
not just the literal key `comment`. -/
def specFirstStringFieldC9 : List (String × JsValue) → Option String
  | [] => none
  | (k, .str s) :: rest =>
    if k ∈ commentAliases then specFirstStringFieldC9 rest else some s
  | _ :: rest => specFirstStringFieldC9 rest

/-- Modelled from claim C9's wording: the full name-priority chain with the
alias-wide comment exclusion. -/
def specCriterionNameC9 (names : List String) (it : JsValue) (idx : ℕ) : String :=
  let fromBackend := ((toStr (pickT it nameAliases)).map jsTrim).getD ""
  let fromUser := jsTrim (names.getD idx "")
  let fallback :=
    match specFirstStringFieldC9 (jsEntries it) with
    | some s => jsTrim s
    | none => ""
  strOr fromBackend (strOr fromUser (strOr fallback ("Item " ++ decStr (idx + 1))))

/-- Modelled from claim C3's wording: `overall_score` resolved by the
first-present-key rule (`pick`) over the alias chain, coerced with default 0. -/
def specOverallScoreC3 (raw : JsValue) : JsNum :=
  toNum (pickT raw ["overall_score", "total_score", "score"]) (.fin 0)

/-- Sum of the effective weights (spec-style closed form for C7). -/
def sumWeightsOf (u : Bool) (m : Option JsValue) (scores : List RubricScore) : ℚ :=
  (scores.map (fun s => effWeight u m s.criterion)).sum

/-- Sum of score·weight (spec-style closed form for C7). -/
def sumScoreWeightsOf (u : Bool) (m : Option JsValue) (scores : List RubricScore) : ℚ :=
  (scores.map (fun s => clampScore s.score * effWeight u m s.criterion)).sum

/-- Maximum finiteness-clamped raw score (spec-style closed form for C7). -/
def maxClampedScore (scores : List RubricScore) : ℚ :=
  listMax (scores.map (fun s => clampScore s.score))


/-! # Theorems

Helper lemmas first, then one theorem (with witness or counterexample as
needed) per claim. -/

theorem decDigitsFuel_digits (f : ℕ) :
    ∀ (n : ℕ), ∀ c ∈ decDigitsFuel f n, c.isDigit = true := by
  induction f with
  | zero =>
    intro n c hc
    simp [decDigitsFuel] at hc
  | succ f ih =>
    intro n c hc
    match n with
    | 0 => simp [decDigitsFuel] at hc
    | n + 1 =>
      rw [decDigitsFuel] at hc
      rcases List.mem_append.mp hc with h | h
      · exact ih ((n + 1) / 10) c h
      · have hm : (n + 1) % 10 < 10 := Nat.mod_lt _ (by norm_num)
        simp only [List.mem_singleton] at h
        subst h
        interval_cases h : (n + 1) % 10 <;> decide

theorem decDigits_digits {n : ℕ} : ∀ c ∈ decDigits n, c.isDigit = true :=
  decDigitsFuel_digits n n

theorem digit_not_whitespace {c : Char} (h : c.isDigit = true) :
    c.isWhitespace = false := by
  by_contra hw
  rw [Bool.not_eq_false] at hw
  have hcases : ((c = ' ' ∨ c = '\t') ∨ c = '\x0d') ∨ c = '\n' := by
    simpa [Char.isWhitespace, Bool.or_eq_true, decide_eq_true_eq] using hw
  rcases hcases with ((h' | h') | h') | h' <;>
    (subst h'; exact absurd h (by decide))

theorem decDigits_ne_nil {n : ℕ} (h : n ≠ 0) : decDigits n ≠ [] := by
  match n with
  | 0 => exact absurd rfl h
  | n + 1 =>
    show decDigitsFuel (n + 1) (n + 1) ≠ []
    rw [decDigitsFuel]
    simp

theorem dropWhile_ws_cons_self {a : Char} {l : List Char} (h : a.isWhitespace = false) :
    List.dropWhile Char.isWhitespace (a :: l) = a :: l := by
  rw [List.dropWhile_cons_of_neg]
  simp [h]

theorem dropWhile_ws_head_not {l : List Char} {a : Char} {t : List Char}
    (h : List.dropWhile Char.isWhitespace l = a :: t) : a.isWhitespace = false := by
  induction l with
  | nil => simp at h
  | cons x xs ih =>
    by_cases hx : x.isWhitespace = true
    · rw [List.dropWhile_cons_of_pos hx] at h
      exact ih h
    · rw [List.dropWhile_cons_of_neg hx] at h
      cases h
      simpa using hx

theorem jsTrim_idem (s : String) : jsTrim (jsTrim s) = jsTrim s := by
  unfold jsTrim
  congr 1
  show List.rdropWhile Char.isWhitespace (List.dropWhile Char.isWhitespace
      (List.rdropWhile Char.isWhitespace (List.dropWhile Char.isWhitespace s.data)))
    = List.rdropWhile Char.isWhitespace (List.dropWhile Char.isWhitespace s.data)
  have hdrop : List.dropWhile Char.isWhitespace
      (List.rdropWhile Char.isWhitespace (List.dropWhile Char.isWhitespace s.data))
      = List.rdropWhile Char.isWhitespace (List.dropWhile Char.isWhitespace s.data) := by
    cases hA : List.rdropWhile Char.isWhitespace
        (List.dropWhile Char.isWhitespace s.data) with
    | nil => simp
    | cons a A =>
      obtain ⟨t, ht⟩ := List.rdropWhile_prefix Char.isWhitespace
        (List.dropWhile Char.isWhitespace s.data)
      rw [hA] at ht
      have hB : List.dropWhile Char.isWhitespace s.data = a :: (A ++ t) := by
        rw [← ht]
        rfl
      exact dropWhile_ws_cons_self (dropWhile_ws_head_not hB)
  rw [hdrop, List.rdropWhile_idempotent]

theorem jsTrim_fixed {a : Char} {l : List Char} (hhead : a.isWhitespace = false)
    (hlast : ((a :: l).getLast (List.cons_ne_nil a l)).isWhitespace = false) :
    jsTrim ⟨a :: l⟩ = ⟨a :: l⟩ := by
  unfold jsTrim
  congr 1
  show List.rdropWhile Char.isWhitespace (List.dropWhile Char.isWhitespace (a :: l)) = a :: l
  rw [dropWhile_ws_cons_self hhead]
  rw [List.rdropWhile_eq_self_iff]
  intro hl
  simp [hlast]

/-- The synthesized item name `"Item " + (idx+1)` is unchanged by trimming. -/
theorem jsTrim_itemName (n : ℕ) :
    jsTrim ("Item " ++ decStr (n + 1)) = "Item " ++ decStr (n + 1) := by
  have hne : decDigits (n + 1) ≠ [] := decDigits_ne_nil (Nat.succ_ne_zero n)
  have hds : decStr (n + 1) = String.mk (decDigits (n + 1)) := by
    unfold decStr
    simp
  have happ : ("Item " ++ decStr (n + 1))
      = String.mk ('I' :: 't' :: 'e' :: 'm' :: ' ' :: decDigits (n + 1)) := by
    rw [hds]
    rfl
  rw [happ]
  apply jsTrim_fixed
  · decide
  · have hstep : ('I' :: 't' :: 'e' :: 'm' :: ' ' :: decDigits (n + 1))
        = ['I', 't', 'e', 'm', ' '] ++ decDigits (n + 1) := rfl
    have hlast : ('I' :: 't' :: 'e' :: 'm' :: ' ' :: decDigits (n + 1)).getLast
        (List.cons_ne_nil _ _) = (decDigits (n + 1)).getLast hne := by
      have := List.getLast_append' ['I', 't', 'e', 'm', ' '] (decDigits (n + 1)) hne
      calc ('I' :: 't' :: 'e' :: 'm' :: ' ' :: decDigits (n + 1)).getLast
            (List.cons_ne_nil _ _)
          = (['I', 't', 'e', 'm', ' '] ++ decDigits (n + 1)).getLast
            (List.append_ne_nil_of_right_ne_nil _ hne) := rfl
        _ = (decDigits (n + 1)).getLast hne := this
    rw [hlast]
    exact digit_not_whitespace (decDigits_digits _ (List.getLast_mem hne))

theorem itemName_ne_empty (n : ℕ) : ("Item " ++ decStr (n + 1)) ≠ "" := by
  intro h
  have hd : ("Item " ++ decStr (n + 1)).data = [] := by rw [h]
  rw [String.data_append] at hd
  simp at hd

theorem pick_objLike {o : JsValue} (h : isObjLike o = true) (ks : List String) :
    pick o ks = .ok (pickT o ks) := by
  induction ks with
  | nil => rfl
  | cons k ks ih =>
    match o, h with
    | .obj fs, _ =>
      simp only [pick, pickT, jsIn, bind, Except.bind]
      split <;> simp_all
    | .arr xs, _ =>
      simp only [pick, pickT, jsIn, bind, Except.bind]
      split <;> simp_all

/-! ## Aggregate recompute: helper lemmas -/

theorem effWeight_pos (u : Bool) (m : Option JsValue) (c : String) :
    0 < effWeight u m c := by
  unfold effWeight
  cases h : (if u then
      jsToNumber (jsNullish (getFieldT (m.getD .undef) c) (.num (.fin 1)))
    else .fin 1) with
  | fin q =>
    simp only [h]
    split
    · assumption
    · norm_num
  | nan => simp only [h]; norm_num
  | posInf => simp only [h]; norm_num
  | negInf => simp only [h]; norm_num

theorem recompute_foldl_eq_sums (u : Bool) (m : Option JsValue)
    (scores : List RubricScore) :
    ∀ acc : ℚ × ℚ,
    List.foldl (fun (acc : ℚ × ℚ) s =>
      (acc.1 + effWeight u m s.criterion,
       acc.2 + clampScore s.score * effWeight u m s.criterion)) acc scores
      = (acc.1 + sumWeightsOf u m scores, acc.2 + sumScoreWeightsOf u m scores) := by
  induction scores with
  | nil =>
    intro acc
    simp [sumWeightsOf, sumScoreWeightsOf]
  | cons s rest ih =>
    intro acc
    simp only [List.foldl_cons, ih, sumWeightsOf, sumScoreWeightsOf, List.map_cons,
      List.sum_cons, Prod.mk.injEq]
    constructor <;> ring

theorem sumWeightsOf_nonneg (u : Bool) (m : Option JsValue)
    (scores : List RubricScore) : 0 ≤ sumWeightsOf u m scores := by
  induction scores with
  | nil =>
    unfold sumWeightsOf
    simp
  | cons s rest ih =>
    simp only [sumWeightsOf, List.map_cons, List.sum_cons] at ih ⊢
    have := effWeight_pos u m s.criterion
    linarith

theorem sumWeightsOf_pos (u : Bool) (m : Option JsValue)
    {scores : List RubricScore} (h : scores ≠ []) : 0 < sumWeightsOf u m scores := by
  match scores, h with
  | s :: rest, _ =>
    have h1 := effWeight_pos u m s.criterion
    have h2 := sumWeightsOf_nonneg u m rest
    simp only [sumWeightsOf, List.map_cons, List.sum_cons] at h2 ⊢
    linarith

/-- The two source copies of the aggregate recompute agree definitionally. -/
theorem recompute_forItem_eq (scores : List RubricScore) (m : Option JsValue) :
    recomputeOverallManualForItem scores m = recomputeOverallManual scores m := rfl

/-- Closed form of the aggregate recompute on a nonempty criteria list. -/
theorem recompute_closed_form (scores : List RubricScore) (m : Option JsValue)
    (h : scores ≠ []) :
    recomputeOverallManual scores m
      = .fin (((⌊sumScoreWeightsOf (useWeightsOf m) m scores /
          sumWeightsOf (useWeightsOf m) m scores *
          (if maxClampedScore scores ≤ 1 then 100 else 1) * 10 + 1 / 2⌋ : ℤ) : ℚ) / 10) := by
  unfold recomputeOverallManual
  rw [if_neg h]
  have hf := recompute_foldl_eq_sums (useWeightsOf m) m scores ((0 : ℚ), (0 : ℚ))
  simp only [hf, zero_add]
  rw [if_neg (by
    have := sumWeightsOf_pos (useWeightsOf m) m h
    linarith)]
  rfl

theorem sumWeightsOf_congr (u : Bool) (m : Option JsValue) :
    ∀ (scores scores' : List RubricScore),
    scores.map (fun s => (s.criterion, s.score))
      = scores'.map (fun s => (s.criterion, s.score)) →
    sumWeightsOf u m scores = sumWeightsOf u m scores'
  | [], [], _ => rfl
  | [], _ :: _, h => by simp at h
  | _ :: _, [], h => by simp at h
  | s :: r, s' :: r', h => by
    simp only [List.map_cons, List.cons.injEq, Prod.mk.injEq] at h
    obtain ⟨⟨hc, _⟩, hrest⟩ := h
    simp only [sumWeightsOf, List.map_cons, List.sum_cons]
    rw [hc]
    have := sumWeightsOf_congr u m r r' hrest
    simp only [sumWeightsOf] at this
    rw [this]

theorem sumScoreWeightsOf_congr (u : Bool) (m : Option JsValue) :
    ∀ (scores scores' : List RubricScore),
    scores.map (fun s => (s.criterion, s.score))
      = scores'.map (fun s => (s.criterion, s.score)) →
    sumScoreWeightsOf u m scores = sumScoreWeightsOf u m scores'
  | [], [], _ => rfl
  | [], _ :: _, h => by simp at h
  | _ :: _, [], h => by simp at h
  | s :: r, s' :: r', h => by
    simp only [List.map_cons, List.cons.injEq, Prod.mk.injEq] at h
    obtain ⟨⟨hc, hs⟩, hrest⟩ := h
    simp only [sumScoreWeightsOf, List.map_cons, List.sum_cons]
    rw [hc, hs]
    have := sumScoreWeightsOf_congr u m r r' hrest
    simp only [sumScoreWeightsOf] at this
    rw [this]

theorem clampedScores_congr :
    ∀ (scores scores' : List RubricScore),
    scores.map (fun s => (s.criterion, s.score))
      = scores'.map (fun s => (s.criterion, s.score)) →
    scores.map (fun s => clampScore s.score)
      = scores'.map (fun s => clampScore s.score)
  | [], [], _ => rfl
  | [], _ :: _, h => by simp at h
  | _ :: _, [], h => by simp at h
  | s :: r, s' :: r', h => by
    simp only [List.map_cons, List.cons.injEq, Prod.mk.injEq] at h
    obtain ⟨⟨_, hs⟩, hrest⟩ := h
    simp only [List.map_cons, List.cons.injEq]
    exact ⟨by rw [hs], clampedScores_congr r r' hrest⟩

/-! ## Claim C1 -/

/-- Claim C1 (counterexample): on criteria `[{score:1,weight:2},{score:0,weight:1}]`
with no override map, the aggregate recompute functions do NOT return `66.7`
(they return `50`: with no map the per-item weights are ignored and every
effective weight is `1`). -/
theorem claim1_counterexample :
    recomputeOverallManual
      [⟨"a", .fin 1, some (.fin 2), none⟩, ⟨"b", .fin 0, some (.fin 1), none⟩] none
      ≠ .fin (667 / 10)
    ∧ recomputeOverallManualForItem
      [⟨"a", .fin 1, some (.fin 2), none⟩, ⟨"b", .fin 0, some (.fin 1), none⟩] none
      ≠ .fin (667 / 10) := by
  constructor <;>
  · simp [recomputeOverallManual, recomputeOverallManualForItem, useWeightsOf,
      effWeight, clampScore, listMax]
    norm_num

/-- Claim C1 (amended): for the criteria list `[{score:1,weight:2},{score:0,weight:1}]`
with no weight-override map supplied, both aggregate recompute functions return
`50.0`: with no map every criterion's effective weight is `1` (the per-item
weight is not consulted), giving weighted mean `(1·1+0·1)/2 = 0.5`, scaled by
100 because the maximum score `1 ≤ 1`, and rounded to one decimal. -/
theorem claim1_theorem :
    recomputeOverallManual
      [⟨"a", .fin 1, some (.fin 2), none⟩, ⟨"b", .fin 0, some (.fin 1), none⟩] none
      = .fin 50
    ∧ recomputeOverallManualForItem
      [⟨"a", .fin 1, some (.fin 2), none⟩, ⟨"b", .fin 0, some (.fin 1), none⟩] none
      = .fin 50 := by
  constructor <;>
  · simp [recomputeOverallManual, recomputeOverallManualForItem, useWeightsOf,
      effWeight, clampScore, listMax]
    norm_num

/-! ## Claim C2 -/

/-- Claim C2 (counterexample): with the map `{"c": 5}` supplied and criteria
`[{criterion:"a",score:1,weight:9},{criterion:"b",score:0,weight:1}]` (neither
criterion in the map), the code yields `50` — every effective weight fell back
to `1` — while the claimed rule (fall back to the per-item weight when the map
entry is absent) yields `90`.  The per-item weight is never consulted by the
code. -/
theorem claim2_counterexample :
    recomputeOverallManual
      [⟨"a", .fin 1, some (.fin 9), none⟩, ⟨"b", .fin 0, some (.fin 1), none⟩]
      (some (.obj [("c", .num (.fin 5))])) = .fin 50
    ∧ specRecomputeC2
      [⟨"a", .fin 1, some (.fin 9), none⟩, ⟨"b", .fin 0, some (.fin 1), none⟩]
      (some (.obj [("c", .num (.fin 5))])) = .fin 90
    ∧ JsNum.fin 50 ≠ JsNum.fin 90 := by
  refine ⟨?_, ?_, ?_⟩
  · simp [recomputeOverallManual, useWeightsOf, effWeight, clampScore, listMax,
      jsKeys, jsEntries, jsTruthy, getFieldT, lookupField, jsNullish, jsToNumber,
      List.find?]
    norm_num
  · simp [specRecomputeC2, specEffWeightC2, clampScore, listMax, jsInT,
      getFieldT, lookupField, jsToNumber, List.find?, List.any]
    norm_num
  · simp only [ne_eq, JsNum.fin.injEq]
    norm_num

/-- Claim C2 (amended): in the aggregate recompute function the criterion's
own per-item weight is never consulted — the result depends only on the
criterion/score pairs — and the effective weight is: `1` when no (non-empty)
map is used; the numeric coercion of the map entry (missing entries default
to `1`) when that coercion is finite and positive; and `1` otherwise (every
non-finite or non-positive candidate is clamped to `1`). -/
theorem claim2_theorem
    (scores scores' : List RubricScore) (m : Option JsValue)
    (h : scores.map (fun s => (s.criterion, s.score))
       = scores'.map (fun s => (s.criterion, s.score))) :
    recomputeOverallManual scores m = recomputeOverallManual scores' m
    ∧ (∀ c, effWeight false m c = 1)
    ∧ (∀ mv c q, m = some mv →
        jsToNumber (jsNullish (getFieldT mv c) (.num (.fin 1))) = .fin q → 0 < q →
        effWeight true m c = q)
    ∧ (∀ mv c, m = some mv →
        (∀ q, jsToNumber (jsNullish (getFieldT mv c) (.num (.fin 1))) = .fin q → q ≤ 0) →
        effWeight true m c = 1) := by
  refine ⟨?_, ?_, ?_, ?_⟩
  · by_cases hs : scores = []
    · have hs' : scores' = [] := by
        subst hs
        cases scores' with
        | nil => rfl
        | cons a l => simp at h
      rw [hs, hs']
    · have hs' : scores' ≠ [] := by
        intro hx
        subst hx
        cases scores with
        | nil => exact hs rfl
        | cons a l => simp at h
      rw [recompute_closed_form scores m hs, recompute_closed_form scores' m hs']
      rw [sumWeightsOf_congr (useWeightsOf m) m scores scores' h,
        sumScoreWeightsOf_congr (useWeightsOf m) m scores scores' h]
      unfold maxClampedScore
      rw [clampedScores_congr scores scores' h]
  · intro c
    simp [effWeight]
  · intro mv c q hm hq hpos
    subst hm
    simp only [effWeight, if_true, Option.getD_some]
    rw [hq]
    simp [hpos]
  · intro mv c hm hq
    subst hm
    simp only [effWeight, if_true, Option.getD_some]
    cases hn : jsToNumber (jsNullish (getFieldT mv c) (.num (.fin 1))) with
    | fin q =>
      have := hq q hn
      simp [not_lt.mpr this]
    | nan => simp
    | posInf => simp
    | negInf => simp

/-- Witness for claim C2's theorem at a concrete input: replacing the
per-item weight `2` by nothing leaves the recomputed aggregate unchanged. -/
theorem claim2_witness :
    recomputeOverallManual [⟨"a", .fin 1, some (.fin 2), none⟩] none
      = recomputeOverallManual [⟨"a", .fin 1, none, none⟩] none :=
  ( claim2_theorem [⟨"a", .fin 1, some (.fin 2), none⟩] [⟨"a", .fin 1, none, none⟩]
    none (by simp)).1

/-! ## Claim C7 -/

/-- Claim C7 (counterexample): the rounding is `Math.round` (half toward
positive infinity), not round-half-away-from-zero: on the single criterion
`{score: -0.0025}` the code returns `-0.2` (`Math.round(-2.5) = -2`), while
the claimed away-from-zero tie rule yields `-0.3`. -/
theorem claim7_counterexample :
    recomputeOverallManual [⟨"a", .fin (-1 / 400), none, none⟩] none = .fin (-1 / 5)
    ∧ specRecomputeC7 [⟨"a", .fin (-1 / 400), none, none⟩] none = .fin (-3 / 10)
    ∧ JsNum.fin (-1 / 5) ≠ JsNum.fin (-3 / 10) := by
  refine ⟨?_, ?_, ?_⟩
  · simp [recomputeOverallManual, useWeightsOf, effWeight, clampScore, listMax]
    norm_num
  · simp [specRecomputeC7, useWeightsOf, effWeight, clampScore, listMax]
    norm_num
  · simp only [ne_eq, JsNum.fin.injEq]
    norm_num

/-- Claim C7 (amended): on a nonempty criteria list the aggregate recompute
multiplies the weighted mean by 100 exactly when the maximum
finiteness-clamped raw score is ≤ 1 and leaves it unscaled otherwise, then
rounds with `⌊value·10 + 1/2⌋ / 10` — `Math.round` semantics, i.e. ties round
toward positive infinity (equivalent to half-away-from-zero only for
non-negative values); both source copies agree. -/
theorem claim7_theorem (scores : List RubricScore) (m : Option JsValue)
    (h : scores ≠ []) :
    recomputeOverallManual scores m
      = .fin (((⌊sumScoreWeightsOf (useWeightsOf m) m scores /
          sumWeightsOf (useWeightsOf m) m scores *
          (if maxClampedScore scores ≤ 1 then 100 else 1) * 10 + 1 / 2⌋ : ℤ) : ℚ) / 10)
    ∧ recomputeOverallManualForItem scores m = recomputeOverallManual scores m :=
  ⟨recompute_closed_form scores m h, rfl⟩

/-- Witness for claim C7's theorem at a concrete input. -/
theorem claim7_witness :
    recomputeOverallManual [⟨"a", .fin 2, none, none⟩] none
      = .fin (((⌊sumScoreWeightsOf (useWeightsOf none) none [⟨"a", .fin 2, none, none⟩] /
          sumWeightsOf (useWeightsOf none) none [⟨"a", .fin 2, none, none⟩] *
          (if maxClampedScore [⟨"a", .fin 2, none, none⟩] ≤ 1 then 100 else 1) * 10
          + 1 / 2⌋ : ℤ) : ℚ) / 10)
    ∧ recomputeOverallManualForItem [⟨"a", .fin 2, none, none⟩] none
      = recomputeOverallManual [⟨"a", .fin 2, none, none⟩] none :=
  claim7_theorem [⟨"a", .fin 2, none, none⟩] none (by simp)

/-! ## Claim C6 -/

theorem le_nan_right (a : JsNum) : JsNum.le a .nan = false := by
  cases a <;> rfl

/-- Claim C6 (counterexample): an `ok` item whose `overall_score` is `NaN`
passes the code's `typeof === "number"` filter (the claim says a non-finite
score contributes nothing), so the summary over `[{ok:true, result:
{overall_score: NaN}}]` is NaN-polluted rather than the claimed all-zero
summary. -/
theorem claim6_counterexample :
    recomputeBatchSummary [⟨"s1", "f1", true, some ⟨.num .nan, none, "", none⟩, none⟩] "60"
      = ⟨.nan, .nan, .nan, .nan, .fin 0⟩
    ∧ (⟨.nan, .nan, .nan, .nan, .fin 0⟩ : BatchSummaryT) ≠ zeroSummary := by
  constructor
  · simp only [recomputeBatchSummary, collectScores, List.filterMap_cons,
      List.filterMap_nil, isNumber, Bool.and_true, List.isEmpty_cons]
    simp [jsRound10, JsNum.add, JsNum.mul, JsNum.div, JsNum.round, JsNum.sub,
      JsNum.neg, JsNum.minJ, JsNum.maxJ, JsNum.sqrtJ, le_nan_right]
    norm_num
  · simp [zeroSummary]

/-- Claim C6 (amended): `recomputeBatchSummary` collects the `overall_score`
of every item whose `ok` is true, whose `result` is present and whose
`overall_score` is number-typed (including `NaN` and the infinities — there
is no finiteness filter); when no item qualifies it returns the all-zero
summary `{avg:0, min:0, max:0, stdev:0, pass_rate:0}` and never divides by
zero. -/
theorem claim6_theorem (items : List BatchItemT) (th : String)
    (h : ∀ it ∈ items,
      ¬(it.ok = true ∧ ∃ r n, it.result = some r ∧ r.overall_score = .num n)) :
    recomputeBatchSummary items th = zeroSummary := by
  have hcol : collectScores items = [] := by
    unfold collectScores
    rw [List.filterMap_eq_nil_iff]
    intro it hit
    have hno := h it hit
    cases hres : it.result with
    | none => simp [hres]
    | some r =>
      by_cases hok : it.ok = true
      · have hnum : isNumber r.overall_score = false := by
          cases hsc : r.overall_score with
          | num n => exact absurd ⟨hok, r, n, hres, hsc⟩ hno
          | undef => rfl
          | null => rfl
          | bool b => rfl
          | str s => rfl
          | arr l => rfl
          | obj l => rfl
        simp [hres, hok, hnum]
      · have hok' : it.ok = false := by simpa using hok
        simp [hres, hok']
  simp [recomputeBatchSummary, hcol, zeroSummary]

/-- Witness for claim C6's theorem at a concrete input: a batch whose single
item failed yields the all-zero summary. -/
theorem claim6_witness :
    recomputeBatchSummary [⟨"s1", "f1", false, none, some "boom"⟩] "60" = zeroSummary :=
  claim6_theorem _ _ (by
    intro it hit
    rw [List.mem_singleton] at hit
    subst hit
    simp)

/-! ## Bridge lemmas: monadic normalizers vs. total mirrors -/

theorem getField_objLike {v : JsValue} (h : isObjLike v = true) (k : String) :
    getField v k = .ok (getFieldT v k) := by
  cases v <;> simp_all [isObjLike, getField]

theorem getField_not_nullish {v : JsValue} (h1 : v ≠ .null) (h2 : v ≠ .undef)
    (k : String) : getField v k = .ok (getFieldT v k) := by
  cases v <;> simp_all [getField]

theorem jsIn_objLike {v : JsValue} (h : isObjLike v = true) (k : String) :
    jsIn k v = .ok (jsInT k v) := by
  cases v <;> simp_all [isObjLike, jsIn]

theorem jsIn_err {v : JsValue} (h : isObjLike v = false) (k : String) :
    jsIn k v = .error () := by
  cases v <;> simp_all [isObjLike, jsIn]

theorem pick_err {o : JsValue} (h : isObjLike o = false) (k : String)
    (ks : List String) : pick o (k :: ks) = .error () := by
  simp [pick, jsIn_err h, bind, Except.bind]

theorem objLike_truthy {v : JsValue} (h : isObjLike v = true) :
    jsTruthy v = true := by
  cases v <;> simp_all [isObjLike, jsTruthy]

theorem OkMap_weightsUsedMapOf (wu : JsValue) : OkMap (weightsUsedMapOf wu) := by
  unfold weightsUsedMapOf OkMap
  split
  · rename_i h
    exact Or.inr ⟨wu, rfl, by simp_all⟩
  · exact Or.inl rfl

theorem weightsUsedMapOf_some {wu v : JsValue} (h : weightsUsedMapOf wu = some v) :
    wu = v ∧ isObjLike v = true := by
  unfold weightsUsedMapOf at h
  split at h
  · cases h
    rename_i hx
    exact ⟨rfl, by simp_all⟩
  · cases h

theorem weightsUsedMapOf_getD (wu : JsValue) :
    weightsUsedMapOf ((weightsUsedMapOf wu).getD .undef) = weightsUsedMapOf wu := by
  cases hm : weightsUsedMapOf wu with
  | none => rfl
  | some v =>
    obtain ⟨-, hv⟩ := weightsUsedMapOf_some hm
    simp only [Option.getD_some]
    unfold weightsUsedMapOf
    rw [objLike_truthy hv, hv]
    rfl

theorem toNum_default_finite (v : JsValue) (q : ℚ) :
    (toNum v (.fin q)).isFinite = true := by
  unfold toNum
  cases hn : jsToNumber v with
  | fin p => simp [hn, JsNum.isFinite]
  | nan => simp [hn, JsNum.isFinite]
  | posInf => simp [hn, JsNum.isFinite]
  | negInf => simp [hn, JsNum.isFinite]

theorem toNum_num_finite {n : JsNum} (h : n.isFinite = true) (d : JsNum) :
    toNum (.num n) d = n := by
  unfold toNum jsToNumber
  simp [h]

/-- The function `normItem` evaluates to its total mirror on object/array items under an
acceptable map. -/
theorem normItem_eval {m : Option JsValue} {it : JsValue}
    (hit : isObjLike it = true) (hm : OkMap m) (names : List String) (idx : ℕ) :
    normItem m names it idx = .ok (normItemObj m names it idx) := by
  unfold normItem normItemObj criterionOf weightOf
  rw [pick_objLike hit, pick_objLike hit, pick_objLike hit, pick_objLike hit]
  rcases hm with hm | ⟨mv, hm, hmv⟩
  · subst hm
    simp [bind, Except.bind]
  · subst hm
    simp only [bind, Except.bind]
    rw [jsIn_objLike hmv]
    simp only [bind, Except.bind]
    split <;> split <;> simp_all

/-- The function `normItem` throws on non-object items (the first `in` test throws). -/
theorem normItem_err_item {m : Option JsValue} {it : JsValue}
    (hit : isObjLike it = false) (names : List String) (idx : ℕ) :
    normItem m names it idx = .error () := by
  unfold normItem nameAliases
  rw [pick_err hit]
  rfl

/-- The function `normItem` throws when the supplied map is a primitive. -/
theorem normItem_err_map {mv it : JsValue} (hit : isObjLike it = true)
    (hmv : isObjLike mv = false) (names : List String) (idx : ℕ) :
    normItem (some mv) names it idx = .error () := by
  unfold normItem
  rw [pick_objLike hit, pick_objLike hit]
  simp [bind, Except.bind, jsIn_err hmv]

/-! ## Canonicality of `normItem` outputs -/

theorem strOr_left {a : String} (h : a ≠ "") (b : String) : strOr a b = a := by
  unfold strOr
  exact if_neg h

theorem strOr_ne_empty {a b : String} (hb : b ≠ "") : strOr a b ≠ "" := by
  unfold strOr
  split
  · exact hb
  · rename_i h
    exact h

theorem jsTrim_strOr {a b : String} (ha : jsTrim a = a) (hb : jsTrim b = b) :
    jsTrim (strOr a b) = strOr a b := by
  unfold strOr
  split <;> assumption

theorem criterionOf_trim (names : List String) (it : JsValue) (idx : ℕ) :
    jsTrim (criterionOf names it idx) = criterionOf names it idx := by
  simp only [criterionOf]
  apply jsTrim_strOr
  · cases hts : toStr (pickT it nameAliases) with
    | none => rfl
    | some s => simp [jsTrim_idem]
  apply jsTrim_strOr
  · exact jsTrim_idem _
  apply jsTrim_strOr
  · split
    · unfold itemFallbackName
      cases firstStringField (jsEntries it) with
      | none => rfl
      | some s => exact jsTrim_idem s
    · rfl
  · exact jsTrim_itemName idx

theorem criterionOf_ne (names : List String) (it : JsValue) (idx : ℕ) :
    criterionOf names it idx ≠ "" := by
  simp only [criterionOf]
  exact strOr_ne_empty (strOr_ne_empty (strOr_ne_empty (itemName_ne_empty idx)))

theorem weightOf_finite (m : Option JsValue) (it : JsValue) (c : String) :
    (weightOf m it c).isFinite = true := by
  unfold weightOf
  cases m with
  | none => exact toNum_default_finite _ 1
  | some mv =>
    simp only []
    split
    · split
      · assumption
      · exact toNum_default_finite _ 1
    · exact toNum_default_finite _ 1

theorem weightOf_stable (m : Option JsValue) (it : JsValue) (c : String) :
    WeightStable m c (weightOf m it c) := by
  intro mv hm hin hfin
  subst hm
  unfold weightOf
  simp [hin, hfin]

theorem normItem_ok_inv {m : Option JsValue} {names : List String} {it : JsValue}
    {idx : ℕ} {out : JsValue} (h : normItem m names it idx = .ok out) :
    isObjLike it = true ∧ OkMap m ∧ out = normItemObj m names it idx := by
  cases hit : isObjLike it with
  | false =>
    rw [normItem_err_item hit] at h
    cases h
  | true =>
    have hm : OkMap m := by
      rcases m with _ | mv
      · exact Or.inl rfl
      · cases hmv : isObjLike mv with
        | false =>
          rw [normItem_err_map hit hmv] at h
          cases h
        | true => exact Or.inr ⟨mv, rfl, hmv⟩
    rw [normItem_eval hit hm] at h
    cases h
    exact ⟨rfl, hm, rfl⟩

theorem normItem_canonical {m : Option JsValue} {names : List String}
    {it : JsValue} {idx : ℕ} {out : JsValue}
    (h : normItem m names it idx = .ok out) : CanonicalItem m out := by
  obtain ⟨hit, hm, rfl⟩ := normItem_ok_inv h
  exact ⟨criterionOf names it idx, toNum (pickT it scoreAliases) (.fin 0),
    weightOf m it (criterionOf names it idx), (toStr (pickT it commentAliases)).getD "",
    rfl, criterionOf_trim names it idx, criterionOf_ne names it idx,
    toNum_default_finite _ 0, weightOf_finite m it _, weightOf_stable m it _⟩

theorem normItem_fix {m : Option JsValue} (hm : OkMap m) (names : List String)
    {v : JsValue} (hv : CanonicalItem m v) (idx : ℕ) :
    normItem m names v idx = .ok v := by
  obtain ⟨c, sc, w, cm, rfl, hctrim, hcne, hsc, hw, hstable⟩ := hv
  rw [normItem_eval (by rfl) hm]
  congr 1
  have hcrit : criterionOf names
      (.obj [("criterion", .str c), ("score", .num sc), ("weight", .num w),
        ("comment", .str cm)]) idx = c := by
    simp only [criterionOf, pickT, nameAliases, jsInT, getFieldT, lookupField,
      List.any, List.find?, toStr]
    simp [hctrim, strOr_left hcne]
  unfold normItemObj
  rw [hcrit]
  have hscore : toNum (pickT (.obj [("criterion", .str c), ("score", .num sc),
      ("weight", .num w), ("comment", .str cm)]) scoreAliases) (.fin 0) = sc := by
    simp only [pickT, scoreAliases, jsInT, getFieldT, lookupField, List.any,
      List.find?]
    simp [toNum_num_finite hsc]
  have hcomm : (toStr (pickT (.obj [("criterion", .str c), ("score", .num sc),
      ("weight", .num w), ("comment", .str cm)]) commentAliases)).getD "" = cm := by
    simp only [pickT, commentAliases, jsInT, getFieldT, lookupField, List.any,
      List.find?]
    simp [toStr]
  have hwbase : toNum (pickT (.obj [("criterion", .str c), ("score", .num sc),
      ("weight", .num w), ("comment", .str cm)]) weightAliases) (.fin 1) = w := by
    simp only [pickT, weightAliases, jsInT, getFieldT, lookupField, List.any,
      List.find?]
    simp [toNum_num_finite hw]
  have hweight : weightOf m (.obj [("criterion", .str c), ("score", .num sc),
      ("weight", .num w), ("comment", .str cm)]) c = w := by
    unfold weightOf
    cases m with
    | none => exact hwbase
    | some mv =>
      simp only []
      split
      · rename_i hin
        split
        · rename_i hfin
          exact hstable mv rfl hin hfin
        · exact hwbase
      · exact hwbase
  rw [hscore, hcomm, hweight]

/-! ## List-level lemmas for the item mapping -/

theorem mapNormItems_canonical {m : Option JsValue} {names : List String} :
    ∀ {l : List JsValue} {idx : ℕ} {outs : List JsValue},
    mapNormItems m names l idx = .ok outs → ∀ o ∈ outs, CanonicalItem m o := by
  intro l
  induction l with
  | nil =>
    intro idx outs h o ho
    cases h
    simp at ho
  | cons it rest ih =>
    intro idx outs h o ho
    cases hx : normItem m names it idx with
    | error e =>
      simp only [mapNormItems, hx, bind, Except.bind] at h
      cases h
    | ok x =>
      cases hxs : mapNormItems m names rest (idx + 1) with
      | error e =>
        simp only [mapNormItems, hx, hxs, bind, Except.bind] at h
        cases h
      | ok xs =>
        simp only [mapNormItems, hx, hxs, bind, Except.bind] at h
        cases h
        rcases List.mem_cons.mp ho with rfl | ho
        · exact normItem_canonical hx
        · exact ih hxs o ho

theorem mapNormItems_fix {m : Option JsValue} (hm : OkMap m) (names : List String) :
    ∀ (l : List JsValue) (idx : ℕ), (∀ v ∈ l, CanonicalItem m v) →
    mapNormItems m names l idx = .ok l := by
  intro l
  induction l with
  | nil =>
    intro idx _
    rfl
  | cons v rest ih =>
    intro idx h
    have hv := normItem_fix hm names (h v (List.mem_cons_self v rest)) idx
    have hrest := ih (idx + 1) (fun x hx => h x (List.mem_cons_of_mem v hx))
    simp only [mapNormItems, hv, hrest, bind, Except.bind]

/-! ## Evaluation and inversion of `normalizeGradeResponse` -/

theorem normalize_eval {raw : JsValue} (hraw : isObjLike raw = true)
    {names : List String} {items : List JsValue}
    (hitems : mapNormItems (weightsUsedMapOf (getFieldT raw "weights_used"))
      names (itemsSrcOf raw) 0 = .ok items) :
    normalizeGradeResponse raw names = .ok (gradeResultObj raw items) := by
  unfold normalizeGradeResponse gradeResultObj
  rw [getField_objLike hraw, pick_objLike hraw, pick_objLike hraw]
  simp only [bind, Except.bind]
  rw [hitems]

theorem normalize_ok_inv {raw : JsValue} {names : List String} {r : JsValue}
    (h : normalizeGradeResponse raw names = .ok r) :
    isObjLike raw = true ∧ ∃ items,
      mapNormItems (weightsUsedMapOf (getFieldT raw "weights_used")) names
        (itemsSrcOf raw) 0 = .ok items
      ∧ r = gradeResultObj raw items := by
  cases raw with
  | null => simp [normalizeGradeResponse, getField, bind, Except.bind] at h
  | undef => simp [normalizeGradeResponse, getField, bind, Except.bind] at h
  | bool b =>
    simp only [normalizeGradeResponse, getField, bind, Except.bind,
      pick_err (show isObjLike (.bool b) = false from rfl)] at h
    cases h
  | num n =>
    simp only [normalizeGradeResponse, getField, bind, Except.bind,
      pick_err (show isObjLike (.num n) = false from rfl)] at h
    cases h
  | str s =>
    simp only [normalizeGradeResponse, getField, bind, Except.bind,
      pick_err (show isObjLike (.str s) = false from rfl)] at h
    cases h
  | arr xs =>
    have hro : isObjLike (.arr xs) = true := rfl
    cases hmi : mapNormItems (weightsUsedMapOf (getFieldT (.arr xs) "weights_used"))
        names (itemsSrcOf (.arr xs)) 0 with
    | error e =>
      unfold normalizeGradeResponse at h
      rw [getField_objLike hro, pick_objLike hro, pick_objLike hro] at h
      simp only [bind, Except.bind] at h
      rw [hmi] at h
      cases h
    | ok items =>
      rw [normalize_eval hro hmi] at h
      cases h
      exact ⟨rfl, items, rfl, rfl⟩
  | obj fs =>
    have hro : isObjLike (.obj fs) = true := rfl
    cases hmi : mapNormItems (weightsUsedMapOf (getFieldT (.obj fs) "weights_used"))
        names (itemsSrcOf (.obj fs)) 0 with
    | error e =>
      unfold normalizeGradeResponse at h
      rw [getField_objLike hro, pick_objLike hro, pick_objLike hro] at h
      simp only [bind, Except.bind] at h
      rw [hmi] at h
      cases h
    | ok items =>
      rw [normalize_eval hro hmi] at h
      cases h
      exact ⟨rfl, items, rfl, rfl⟩

theorem gradeResultObj_canonical {raw : JsValue} {names : List String}
    {items : List JsValue}
    (hitems : mapNormItems (weightsUsedMapOf (getFieldT raw "weights_used"))
      names (itemsSrcOf raw) 0 = .ok items) :
    CanonicalResult (gradeResultObj raw items) := by
  refine ⟨_, _, items, _, _, _, _, rfl, toNum_default_finite _ 0, ?_, ?_, ?_, ?_⟩
  · cases hts : toStr (pickT raw ["reference_answer", "reference", "ref_answer"]) with
    | none => exact Or.inl rfl
    | some s => exact Or.inr ⟨s, rfl⟩
  · cases getFieldT raw "weighted_overall" <;> simp
  · cases hwu : weightsUsedMapOf (getFieldT raw "weights_used") with
    | none => exact Or.inl rfl
    | some v =>
      obtain ⟨-, hv⟩ := weightsUsedMapOf_some hwu
      exact Or.inr hv
  · intro o ho
    rw [weightsUsedMapOf_getD (getFieldT raw "weights_used")]
    exact mapNormItems_canonical hitems o ho

/-- A canonical grade result is a fixed point of normalization. -/
theorem normalize_fix {r : JsValue} (hr : CanonicalResult r) (names : List String) :
    normalizeGradeResponse r names = .ok r := by
  obtain ⟨n, c, items, ra, g, wo, wu, rfl, hn, hra, hwo, hwu, hitems⟩ := hr
  have hobj : isObjLike (JsValue.obj [
      ("overall_score", .num n), ("overall_comment", .str c),
      ("rubric_scores", .arr items), ("reference_answer", ra),
      ("reference_answer_generated", .bool g), ("weighted_overall", wo),
      ("weights_used", wu)]) = true := rfl
  have hget_wu : getFieldT (JsValue.obj [
      ("overall_score", .num n), ("overall_comment", .str c),
      ("rubric_scores", .arr items), ("reference_answer", ra),
      ("reference_answer_generated", .bool g), ("weighted_overall", wo),
      ("weights_used", wu)]) "weights_used" = wu := by
    simp [getFieldT, lookupField, List.find?]
  have hsrc : itemsSrcOf (JsValue.obj [
      ("overall_score", .num n), ("overall_comment", .str c),
      ("rubric_scores", .arr items), ("reference_answer", ra),
      ("reference_answer_generated", .bool g), ("weighted_overall", wo),
      ("weights_used", wu)]) = items := by
    simp [itemsSrcOf, getFieldT, lookupField, List.find?]
  have hmap : mapNormItems (weightsUsedMapOf (getFieldT (JsValue.obj [
      ("overall_score", .num n), ("overall_comment", .str c),
      ("rubric_scores", .arr items), ("reference_answer", ra),
      ("reference_answer_generated", .bool g), ("weighted_overall", wo),
      ("weights_used", wu)]) "weights_used"))
      names (itemsSrcOf (JsValue.obj [
      ("overall_score", .num n), ("overall_comment", .str c),
      ("rubric_scores", .arr items), ("reference_answer", ra),
      ("reference_answer_generated", .bool g), ("weighted_overall", wo),
      ("weights_used", wu)])) 0 = .ok items := by
    rw [hget_wu, hsrc]
    exact mapNormItems_fix (OkMap_weightsUsedMapOf wu) names items 0 hitems
  rw [normalize_eval hobj hmap]
  congr 1
  have hgetd : (weightsUsedMapOf wu).getD .undef = wu := by
    rcases hwu with rfl | h
    · rfl
    · simp [weightsUsedMapOf, objLike_truthy h, h]
  rcases hra with rfl | ⟨s, rfl⟩ <;> rcases hwo with rfl | ⟨m2, rfl⟩ <;>
  · simp [gradeResultObj, pickT, jsInT, List.any, getFieldT, lookupField,
      List.find?, jsNullish, toStr, jsTruthy, toNum_num_finite hn, hgetd]

/-! ## Claim C10 -/

/-- Claim C10: `normalizeGradeResponse` is idempotent — re-normalizing its own
canonical output with the same reviewer-name list reproduces that output
exactly. -/
theorem claim10_theorem (raw : JsValue) (names : List String) (r : JsValue)
    (h : normalizeGradeResponse raw names = .ok r) :
    normalizeGradeResponse r names = .ok r := by
  obtain ⟨hraw, items, hitems, rfl⟩ := normalize_ok_inv h
  exact normalize_fix (gradeResultObj_canonical hitems) names

/-- Witness for claim C10's theorem: normalizing the empty-object payload and
re-normalizing the canonical output. -/
theorem claim10_witness :
    normalizeGradeResponse (.obj [
      ("overall_score", .num (.fin 0)), ("overall_comment", .str ""),
      ("rubric_scores", .arr []), ("reference_answer", .undef),
      ("reference_answer_generated", .bool false), ("weighted_overall", .undef),
      ("weights_used", .undef)]) []
    = .ok (.obj [
      ("overall_score", .num (.fin 0)), ("overall_comment", .str ""),
      ("rubric_scores", .arr []), ("reference_answer", .undef),
      ("reference_answer_generated", .bool false), ("weighted_overall", .undef),
      ("weights_used", .undef)]) :=
  claim10_theorem (.obj []) [] _ (by rfl)

/-! ## Claim C4 -/

/-- Claim C4 (code evaluation at the failing input): normalization is NOT
total — a `null` entry inside `rubric_scores` (resp. `items`) makes
`normalizeGradeResponse` (resp. `normalizeBatchResponse`) throw a
`TypeError`, because `normItem` applies the `in` operator to the entry and
the batch item loop reads `it.id` from it. -/
theorem claim4_theorem :
    normalizeGradeResponse (.obj [("rubric_scores", .arr [.null])]) [] = .error ()
    ∧ normalizeBatchResponse (.obj [("items", .arr [.null])]) [] = .error () := by
  constructor <;> rfl

/-! ## Claim C3 -/

/-- Claim C3 (counterexample): `normalizeGradeResponse` does NOT resolve
`overall_score` with the first-present-key rule: on
`{overall_score: null, total_score: 5}` the nullish chain
`raw.overall_score ?? raw.total_score ?? raw.score` skips the present-but-null
`overall_score` key and yields `5`, while the claimed `pick`-based rule stops
at `overall_score` and coerces `null` to `0`. -/
theorem claim3_counterexample :
    Except.map (fun r => getFieldT r "overall_score")
      (normalizeGradeResponse (.obj [("overall_score", .null),
        ("total_score", .num (.fin 5))]) [])
      = .ok (.num (.fin 5))
    ∧ specOverallScoreC3 (.obj [("overall_score", .null),
        ("total_score", .num (.fin 5))]) = .fin 0
    ∧ JsNum.fin 5 ≠ JsNum.fin 0 := by
  refine ⟨by rfl, by rfl, ?_⟩
  simp only [ne_eq, JsNum.fin.injEq]
  norm_num

/-- Claim C3 (amended): `pick` itself does return the first alias that is a
present key — even when its value is falsy — but `normalizeGradeResponse`
resolves `overall_score` with nullish coalescing
(`raw.overall_score ?? raw.total_score ?? raw.score`, coerced with default
0), which skips present keys holding `null`/`undefined`. -/
theorem claim3_theorem :
    (∀ (o : JsValue) (pre post : List String) (k : String),
      isObjLike o = true → (∀ k' ∈ pre, jsInT k' o = false) → jsInT k o = true →
      pick o (pre ++ k :: post) = .ok (getFieldT o k))
    ∧ (∀ raw names r, normalizeGradeResponse raw names = .ok r →
        getFieldT r "overall_score" = .num (toNum
          (jsNullish (getFieldT raw "overall_score")
            (jsNullish (getFieldT raw "total_score") (getFieldT raw "score")))
          (.fin 0))) := by
  constructor
  · intro o pre post k ho hpre hk
    induction pre with
    | nil =>
      rw [List.nil_append, pick_objLike ho]
      simp [pickT, hk]
    | cons k' pre ih =>
      rw [List.cons_append, pick_objLike ho]
      simp only [pickT, hpre k' (List.mem_cons_self k' pre), Bool.false_eq_true,
        if_false]
      rw [← pick_objLike ho]
      exact ih (fun x hx => hpre x (List.mem_cons_of_mem k' hx))
  · intro raw names r h
    obtain ⟨hraw, items, hitems, rfl⟩ := normalize_ok_inv h
    rfl

/-- Witness for claim C3's theorem: `pick` returns the present key `score`
valued `0` (not skipped) after the absent alias `missing`; and the
overall_score equation instantiated on the counterexample payload. -/
theorem claim3_witness :
    pick (.obj [("score", .num (.fin 0))]) (["missing"] ++ "score" :: [])
      = .ok (getFieldT (.obj [("score", .num (.fin 0))]) "score")
    ∧ getFieldT (.obj [
        ("overall_score", .num (.fin 0)), ("overall_comment", .str ""),
        ("rubric_scores", .arr []), ("reference_answer", .undef),
        ("reference_answer_generated", .bool false), ("weighted_overall", .undef),
        ("weights_used", .undef)]) "overall_score"
      = .num (toNum (jsNullish (getFieldT (.obj []) "overall_score")
          (jsNullish (getFieldT (.obj []) "total_score")
            (getFieldT (.obj []) "score"))) (.fin 0)) :=
  ⟨claim3_theorem.1 (.obj [("score", .num (.fin 0))]) ["missing"] [] "score"
      (by rfl) (by intro k' hk'; simp at hk'; subst hk'; rfl) (by rfl),
    claim3_theorem.2 (.obj []) [] _ (by rfl)⟩

theorem strOr_empty_left (b : String) : strOr "" b = b := by
  unfold strOr
  rw [if_pos rfl]

/-- The conditionally-computed fallback (only evaluated when the two higher-
priority names are empty) yields the same priority chain as the
unconditional one. -/
theorem strOr_fallback_eq (fb fu fallbackV itemN : String) :
    strOr fb (strOr fu (strOr (if fb = "" ∧ fu = "" then fallbackV else "") itemN))
      = strOr fb (strOr fu (strOr fallbackV itemN)) := by
  by_cases hb : fb = ""
  · by_cases hu : fu = ""
    · rw [if_pos ⟨hb, hu⟩]
    · rw [if_neg (by simp [hu])]
      subst hb
      simp only [strOr_empty_left, strOr_left hu]
  · rw [strOr_left hb, strOr_left hb]

/-! ## Claim C9 -/

/-- Claim C9 (counterexample): the name-fallback scan excludes only the
literal key `"comment"`, not every comment alias: on raw item
`{feedback: "great"}` the code resolves the name `"great"`, while the claimed
rule (excluding all of comment/feedback/reason/explanation/notes) would
synthesize `"Item 1"`. -/
theorem claim9_counterexample :
    Except.map (fun out => getFieldT out "criterion")
      (normItem none [] (.obj [("feedback", .str "great")]) 0)
      = .ok (.str "great")
    ∧ specCriterionNameC9 [] (.obj [("feedback", .str "great")]) 0 = "Item 1"
    ∧ ("great" : String) ≠ "Item 1" := by
  refine ⟨by rfl, by decide, by decide⟩

/-- Claim C9 (amended): `normItem` resolves the i-th item's name by strict
priority — (1) trimmed first-present-key value over the name aliases if
non-empty; (2) the trimmed reviewer-supplied name at index i if non-empty;
(3) the trimmed first string-typed value among the raw item's own fields in
natural key order, excluding only the literal field key `"comment"` (the
other comment aliases are NOT excluded); (4) the synthesized name
`"Item " + (i+1)` — and raw item `{weight: 2}` at index 0 with no reviewer
names resolves to `"Item 1"`. -/
theorem claim9_theorem (m : Option JsValue) (names : List String) (it : JsValue)
    (idx : ℕ) (out : JsValue) (h : normItem m names it idx = .ok out) :
    getFieldT out "criterion" = .str (criterionOf names it idx)
    ∧ criterionOf names it idx
      = strOr (((toStr (pickT it nameAliases)).map jsTrim).getD "")
          (strOr (jsTrim (names.getD idx ""))
            (strOr (itemFallbackName it) ("Item " ++ decStr (idx + 1))))
    ∧ criterionOf [] (.obj [("weight", .num (.fin 2))]) 0 = "Item 1" := by
  obtain ⟨hit, hm, rfl⟩ := normItem_ok_inv h
  refine ⟨by rfl, ?_, by decide⟩
  simp only [criterionOf]
  exact strOr_fallback_eq _ _ _ _

/-- Witness for claim C9's theorem on the raw item `{feedback: "great"}`. -/
theorem claim9_witness :
    getFieldT (normItemObj none [] (.obj [("feedback", .str "great")]) 0) "criterion"
      = .str (criterionOf [] (.obj [("feedback", .str "great")]) 0)
    ∧ criterionOf [] (.obj [("feedback", .str "great")]) 0
      = strOr (((toStr (pickT (.obj [("feedback", .str "great")]) nameAliases)).map
          jsTrim).getD "")
          (strOr (jsTrim (([] : List String).getD 0 ""))
            (strOr (itemFallbackName (.obj [("feedback", .str "great")]))
              ("Item " ++ decStr (0 + 1))))
    ∧ criterionOf [] (.obj [("weight", .num (.fin 2))]) 0 = "Item 1" :=
  claim9_theorem none [] (.obj [("feedback", .str "great")]) 0 _ (by rfl)

/-! ## Batch normalizer: inversion lemmas -/

theorem normBatchItem_ok_inv {m : Option JsValue} {names : List String}
    {it out : JsValue} (h : normBatchItem m names it = .ok out) :
    ∃ idS fileS okb resultV errV,
      out = .obj [("id", .str idS), ("file", .str fileS), ("ok", .bool okb),
        ("result", resultV), ("error", errV)]
      ∧ (okb = false → resultV = .null)
      ∧ (okb = true → errV = .null) := by
  have h1 : it ≠ .null := by
    rintro rfl
    simp [normBatchItem, getField, bind, Except.bind] at h
  have h2 : it ≠ .undef := by
    rintro rfl
    simp [normBatchItem, getField, bind, Except.bind] at h
  unfold normBatchItem at h
  rw [getField_not_nullish h1 h2, getField_not_nullish h1 h2,
    getField_not_nullish h1 h2, getField_not_nullish h1 h2,
    getField_not_nullish h1 h2] at h
  simp only [bind, Except.bind] at h
  split at h
  · -- condition true: ok && truthy result && object-like result
    rename_i hc
    have hok : jsTruthy (getFieldT it "ok") = true := by
      have := hc
      simp only [Bool.and_eq_true] at this
      exact this.1.1
    split at h
    · -- rubric_scores is an array: the item mapping may throw
      rename_i xs hxs
      cases hmi : mapNormItems m names xs 0 with
      | error e =>
        rw [hmi] at h
        simp only [Except.bind] at h
        cases h
      | ok ys =>
        rw [hmi] at h
        simp only [Except.bind] at h
        have hrv : isObjLike (getFieldT it "result") = true := by
          have := hc
          simp only [Bool.and_eq_true] at this
          exact this.2
        rw [pick_objLike hrv] at h
        simp only [Except.bind] at h
        cases h
        refine ⟨_, _, _, _, _, rfl, ?_, ?_⟩
        · intro hfalse
          rw [hok] at hfalse
          cases hfalse
        · intro _
          rw [hok]
          rfl
    · rename_i hxs
      have hrv : isObjLike (getFieldT it "result") = true := by
        have := hc
        simp only [Bool.and_eq_true] at this
        exact this.2
      rw [pick_objLike hrv] at h
      simp only [Except.bind] at h
      cases h
      refine ⟨_, _, _, _, _, rfl, ?_, ?_⟩
      · intro hfalse
        rw [hok] at hfalse
        cases hfalse
      · intro _
        rw [hok]
        rfl
  · -- condition false: result is null
    rename_i hc
    cases h
    refine ⟨_, _, _, _, _, rfl, ?_, ?_⟩
    · intro _
      rfl
    · intro htrue
      rw [htrue]
      rfl

theorem mapNormBatchItems_shape {m : Option JsValue} {names : List String} :
    ∀ {l outs : List JsValue}, mapNormBatchItems m names l = .ok outs →
    ∀ o ∈ outs,
      ∃ idS fileS okb resultV errV,
        o = .obj [("id", .str idS), ("file", .str fileS), ("ok", .bool okb),
          ("result", resultV), ("error", errV)]
        ∧ (okb = false → resultV = .null)
        ∧ (okb = true → errV = .null) := by
  intro l
  induction l with
  | nil =>
    intro outs h o ho
    cases h
    simp at ho
  | cons it rest ih =>
    intro outs h o ho
    cases hx : normBatchItem m names it with
    | error e =>
      simp only [mapNormBatchItems, hx, bind, Except.bind] at h
      cases h
    | ok x =>
      cases hxs : mapNormBatchItems m names rest with
      | error e =>
        simp only [mapNormBatchItems, hx, hxs, bind, Except.bind] at h
        cases h
      | ok xs =>
        simp only [mapNormBatchItems, hx, hxs, bind, Except.bind] at h
        cases h
        rcases List.mem_cons.mp ho with rfl | ho
        · exact normBatchItem_ok_inv hx
        · exact ih hxs o ho

theorem normalizeBatch_eval {raw : JsValue} (h1 : raw ≠ .null) (h2 : raw ≠ .undef)
    {names : List String} {items : List JsValue}
    (hitems : mapNormBatchItems (weightsUsedMapOf (getFieldT raw "weights_used"))
      names (rawItemsOf raw) = .ok items) :
    normalizeBatchResponse raw names = .ok (batchResultObj raw items) := by
  unfold rawItemsOf at hitems
  unfold normalizeBatchResponse batchResultObj rawItemsOf
  rw [getField_not_nullish h1 h2, getField_not_nullish h1 h2]
  simp only [bind, Except.bind]
  rw [hitems]

theorem normalizeBatch_ok_inv {raw : JsValue} {names : List String} {resp : JsValue}
    (h : normalizeBatchResponse raw names = .ok resp) :
    ∃ items, mapNormBatchItems (weightsUsedMapOf (getFieldT raw "weights_used"))
      names (rawItemsOf raw) = .ok items
      ∧ resp = batchResultObj raw items := by
  have h1 : raw ≠ .null := by
    rintro rfl
    simp [normalizeBatchResponse, getField, bind, Except.bind] at h
  have h2 : raw ≠ .undef := by
    rintro rfl
    simp [normalizeBatchResponse, getField, bind, Except.bind] at h
  cases hmi : mapNormBatchItems (weightsUsedMapOf (getFieldT raw "weights_used"))
      names (rawItemsOf raw) with
  | error e =>
    unfold rawItemsOf at hmi
    unfold normalizeBatchResponse at h
    rw [getField_not_nullish h1 h2, getField_not_nullish h1 h2] at h
    simp only [bind, Except.bind] at h
    rw [hmi] at h
    cases h
  | ok items =>
    rw [normalizeBatch_eval h1 h2 hmi] at h
    cases h
    exact ⟨items, rfl, rfl⟩

/-! ## Claim C5 -/

/-- Claim C5 (counterexample): for the raw batch payload
`{items: [{ok: true}]}` — `ok` true but no `result` field — the normalized
item carries `ok = true` with `result = null`, i.e. `ok == true` does NOT
imply `result` is present. -/
theorem claim5_counterexample :
    Except.map (fun resp =>
      match getFieldT resp "items" with
      | JsValue.arr xs =>
        xs.map (fun item => (getFieldT item "ok", getFieldT item "result"))
      | _ => [])
      (normalizeBatchResponse (.obj [("items", .arr [.obj [("ok", .bool true)]])]) [])
      = .ok [(.bool true, .null)] := by
  rfl

/-- Claim C5 (amended): every `BatchItem` produced by `normalizeBatchResponse`
satisfies: `ok == false` implies `result` is `null` (absent), and `ok == true`
implies `error` is `null` (absent) — but `ok == true` guarantees a present
`result` only when the raw item's `result` field is a truthy object; when it
is missing or not an object the produced item has `ok == true` with
`result == null`. -/
theorem claim5_theorem (raw : JsValue) (names : List String) (resp : JsValue)
    (h : normalizeBatchResponse raw names = .ok resp) :
    ∀ item ∈ (match getFieldT resp "items" with
      | JsValue.arr xs => xs
      | _ => ([] : List JsValue)),
      (getFieldT item "ok" = .bool false → getFieldT item "result" = .null)
      ∧ (getFieldT item "ok" = .bool true → getFieldT item "error" = .null) := by
  obtain ⟨items, hmi, rfl⟩ := normalizeBatch_ok_inv h
  intro item hitem
  have hfield : getFieldT (batchResultObj raw items) "items" = .arr items := by
    simp [batchResultObj, getFieldT, lookupField, List.find?]
  rw [hfield] at hitem
  obtain ⟨idS, fileS, okb, resultV, errV, rfl, hfalse, htrue⟩ :=
    mapNormBatchItems_shape hmi item hitem
  constructor
  · intro hok
    have hb : okb = false := by
      simp [getFieldT, lookupField, List.find?] at hok
      exact hok
    have : getFieldT (JsValue.obj [("id", .str idS), ("file", .str fileS),
        ("ok", .bool okb), ("result", resultV), ("error", errV)]) "result"
        = resultV := by
      simp [getFieldT, lookupField, List.find?]
    rw [this, hfalse hb]
  · intro hok
    have hb : okb = true := by
      simp [getFieldT, lookupField, List.find?] at hok
      exact hok
    have : getFieldT (JsValue.obj [("id", .str idS), ("file", .str fileS),
        ("ok", .bool okb), ("result", resultV), ("error", errV)]) "error"
        = errV := by
      simp [getFieldT, lookupField, List.find?]
    rw [this, htrue hb]

/-- Witness for claim C5's theorem on a batch with one failed item: the
normalized item has `ok = false`, so its `result` is `null`. -/
theorem claim5_witness :
    getFieldT (.obj [("id", .str ""), ("file", .str ""), ("ok", .bool false),
      ("result", .null), ("error", .str "x")]) "result" = .null :=
  (claim5_theorem
    (.obj [("items", .arr [.obj [("ok", .bool false), ("error", .str "x")]])]) [] _
    (by rfl)
    (.obj [("id", .str ""), ("file", .str ""), ("ok", .bool false),
      ("result", .null), ("error", .str "x")])
    (by exact List.mem_singleton.mpr rfl)).1 (by rfl)

/-! ## Claim C8 -/

/-- Claim C8: when a raw batch payload carries a (truthy object) summary,
`normalizeBatchResponse` coerces `avg`, `min`, `max` and `stdev` to numbers
with default 0 and no rescaling, and multiplies `pass_rate`'s coercion by 100
exactly once; with no summary object the canonical summary is absent
(`undefined`). -/
theorem claim8_theorem (raw : JsValue) (names : List String) (resp : JsValue)
    (h : normalizeBatchResponse raw names = .ok resp) :
    getFieldT resp "summary" = batchSummaryOf (getFieldT raw "summary")
    ∧ (∀ sv, (jsTruthy sv && isObjLike sv) = true →
        batchSummaryOf sv = .obj [
          ("avg", .num (toNum (getFieldT sv "avg") (.fin 0))),
          ("min", .num (toNum (getFieldT sv "min") (.fin 0))),
          ("max", .num (toNum (getFieldT sv "max") (.fin 0))),
          ("stdev", .num (toNum (getFieldT sv "stdev") (.fin 0))),
          ("pass_rate", .num (JsNum.mul
            (toNum (getFieldT sv "pass_rate") (.fin 0)) (.fin 100)))])
    ∧ (∀ sv, (jsTruthy sv && isObjLike sv) = false → batchSummaryOf sv = .undef) := by
  obtain ⟨items, hmi, rfl⟩ := normalizeBatch_ok_inv h
  refine ⟨?_, ?_, ?_⟩
  · simp [batchResultObj, getFieldT, lookupField, List.find?]
  · intro sv hsv
    unfold batchSummaryOf
    rw [if_pos hsv]
  · intro sv hsv
    unfold batchSummaryOf
    rw [if_neg (by simp [hsv])]

/-- Witness for claim C8's theorem on a payload whose summary reports
`pass_rate` as the fraction 1/2 (normalized to 50). -/
theorem claim8_witness :
    getFieldT (batchResultObj
        (.obj [("summary", .obj [("pass_rate", .num (.fin (1 / 2)))])]) []) "summary"
      = batchSummaryOf (getFieldT
        (.obj [("summary", .obj [("pass_rate", .num (.fin (1 / 2)))])]) "summary")
    ∧ (∀ sv, (jsTruthy sv && isObjLike sv) = true →
        batchSummaryOf sv = .obj [
          ("avg", .num (toNum (getFieldT sv "avg") (.fin 0))),
          ("min", .num (toNum (getFieldT sv "min") (.fin 0))),
          ("max", .num (toNum (getFieldT sv "max") (.fin 0))),
          ("stdev", .num (toNum (getFieldT sv "stdev") (.fin 0))),
          ("pass_rate", .num (JsNum.mul
            (toNum (getFieldT sv "pass_rate") (.fin 0)) (.fin 100)))])
    ∧ (∀ sv, (jsTruthy sv && isObjLike sv) = false → batchSummaryOf sv = .undef) :=
  claim8_theorem (.obj [("summary", .obj [("pass_rate", .num (.fin (1 / 2)))])]) [] _
    (by rfl)

end Grading
